import Mathlib

set_option maxHeartbeats 1000000

/-
Verification development for the inkparse backend (src/inkparse-server.js and the
two unnamed near-duplicate server variants). The subject is the response
sanitization pipeline of POST /api/analyze (fence stripping, brace extraction,
JSON parse with one backslash-repair retry, field defaulting, mermaid newline and
label sanitization, notes backslash cleanup), the analogous pipeline of
POST /api/generate-doc, the request normalizer, and the endpoint error mapping.

JSON values are modeled by the subset relevant to the repository data model:
strings, booleans, null, arrays and objects. Number literals do not occur in the
AnalysisResult / DocumentResult data model and are outside the modeled subset.
JavaScript strings are modeled as Lean strings or lists of characters; the
whitespace class is modeled as space, tab, carriage return and newline.
-/

/-- A JSON value, restricted to the subset used by the repository data model. -/
inductive JVal where
  | null : JVal
  | bool (b : Bool) : JVal
  | str (s : String) : JVal
  | arr (xs : List JVal) : JVal
  | obj (kvs : List (String × JVal)) : JVal
deriving Repr

/-- The backtick character. -/
def tick : Char := Char.ofNat 96

/-- The apostrophe character. -/
def apos : Char := Char.ofNat 39

/-- JSON.stringify escaping of one character, as V8 emits it for the modeled
character set: quote, backslash, newline, carriage return, tab, backspace and
form feed become two-character escapes; other characters are emitted verbatim. -/
def escChar (c : Char) : List Char :=
  if c = '"' then ['\\', '"']
  else if c = '\\' then ['\\', '\\']
  else if c = '\n' then ['\\', 'n']
  else if c = '\r' then ['\\', 'r']
  else if c = '\t' then ['\\', 't']
  else if c = Char.ofNat 8 then ['\\', 'b']
  else if c = Char.ofNat 12 then ['\\', 'f']
  else [c]

/-- JSON.stringify escaping of a string body. -/
def escString : List Char → List Char
  | [] => []
  | c :: r => escChar c ++ escString r

mutual
/-- JSON.stringify of a value (compact form, as Node's JSON.stringify with no
spacing argument produces). -/
def strL : JVal → List Char
  | .null => 'n' :: ['u', 'l', 'l']
  | .bool true => 't' :: ['r', 'u', 'e']
  | .bool false => 'f' :: ['a', 'l', 's', 'e']
  | .str s => '"' :: (escString s.data ++ ['"'])
  | .arr [] => ['[', ']']
  | .arr (x :: xs) => '[' :: (strL x ++ strTailA xs)
  | .obj [] => ['{', '}']
  | .obj (p :: ps) => '{' :: (strPair p ++ strTailO ps)

/-- One key/value member of an object, `"key":value`. -/
def strPair : String × JVal → List Char
  | (k, v) => '"' :: (escString k.data ++ '"' :: ':' :: strL v)

/-- Remaining array elements, each preceded by a comma, then the closing bracket. -/
def strTailA : List JVal → List Char
  | [] => [']']
  | x :: xs => ',' :: (strL x ++ strTailA xs)

/-- Remaining object members, each preceded by a comma, then the closing brace. -/
def strTailO : List (String × JVal) → List Char
  | [] => ['}']
  | p :: ps => ',' :: (strPair p ++ strTailO ps)
end

/-- JSON.stringify of a value, as a string. -/
def stringifyJ (v : JVal) : String := String.mk (strL v)

/-- JSON whitespace (also the model of the JavaScript regex class \s and of
String.prototype.trim, restricted to the ASCII whitespace actually occurring). -/
def wsB (c : Char) : Bool := c = ' ' || c = '\t' || c = '\r' || c = '\n'

/-- Skip leading whitespace. -/
def skipWs (l : List Char) : List Char := l.dropWhile wsB

/-- Value of one hexadecimal digit. -/
def hexVal (c : Char) : Option Nat :=
  if 48 ≤ c.toNat ∧ c.toNat ≤ 57 then some (c.toNat - 48)
  else if 97 ≤ c.toNat ∧ c.toNat ≤ 102 then some (c.toNat - 87)
  else if 65 ≤ c.toNat ∧ c.toNat ≤ 70 then some (c.toNat - 55)
  else none

/-- Cons a character onto the pending result of a string-body parse. -/
def pcons (c : Char) : Option (List Char × List Char) → Option (List Char × List Char)
  | some (s, r) => some (c :: s, r)
  | none => none

/-- Parse the body of a JSON string after the opening quote, returning the decoded
characters and the remaining input after the closing quote. Exactly the escape
sequences JSON.parse recognizes are accepted: \" \\ \/ \b \f \n \r \t and \uXXXX.
A backslash followed by anything else is a parse error, which is the behavior the
sanitizer's repair step exists to work around. Fuel only bounds recursion; any
fuel larger than the input length suffices. -/
def parseStrF : Nat → List Char → Option (List Char × List Char)
  | 0, _ => none
  | _ + 1, [] => none
  | n + 1, c :: r =>
    if c = '"' then some ([], r)
    else if c = '\\' then
      match r with
      | [] => none
      | e :: r2 =>
        if e = '"' then pcons '"' (parseStrF n r2)
        else if e = '\\' then pcons '\\' (parseStrF n r2)
        else if e = '/' then pcons '/' (parseStrF n r2)
        else if e = 'b' then pcons (Char.ofNat 8) (parseStrF n r2)
        else if e = 'f' then pcons (Char.ofNat 12) (parseStrF n r2)
        else if e = 'n' then pcons '\n' (parseStrF n r2)
        else if e = 'r' then pcons '\r' (parseStrF n r2)
        else if e = 't' then pcons '\t' (parseStrF n r2)
        else if e = 'u' then
          match r2 with
          | h1 :: h2 :: h3 :: h4 :: r3 =>
            match hexVal h1, hexVal h2, hexVal h3, hexVal h4 with
            | some a, some b, some cc, some d =>
              pcons (Char.ofNat (((a * 16 + b) * 16 + cc) * 16 + d)) (parseStrF n r3)
            | _, _, _, _ => none
          | _ => none
        else none
    else pcons c (parseStrF n r)

/-- Look up a key in an object's member list (first occurrence). -/
def lookupKV : List (String × JVal) → String → Option JVal
  | [], _ => none
  | (k', v') :: t, k => if k' = k then some v' else lookupKV t k

/-- JavaScript property assignment on an object: update the value in place if the
key exists (keeping its position), otherwise append the new member at the end. -/
def insertKV : List (String × JVal) → String → JVal → List (String × JVal)
  | [], k, v => [(k, v)]
  | (k', v') :: t, k, v => if k' = k then (k, v) :: t else (k', v') :: insertKV t k v

/-- Collapse duplicate keys the way JSON.parse builds an object: members are
assigned left to right, so a repeated key keeps its first position with its last
value. -/
def normKVs (ps : List (String × JVal)) : List (String × JVal) :=
  ps.foldl (fun acc p => insertKV acc p.1 p.2) []

/-- What the recursive JSON reader is currently asked to read: one value, one
`"key": value` member, the members of an object after the first, or the elements
of an array after the first. -/
inductive PMode where
  | v : PMode
  | p : PMode
  | ot : PMode
  | at : PMode

/-- The result of one recursive JSON reading step, tagged by what was read. -/
inductive POut where
  | oneVal (val : JVal) (rest : List Char) : POut
  | onePair (key : String) (val : JVal) (rest : List Char) : POut
  | objMembers (ps : List (String × JVal)) (rest : List Char) : POut
  | arrElems (vs : List JVal) (rest : List Char) : POut

/-- Fueled model of the recursive structure of JSON.parse on the modeled subset.
Mode .v parses one value; .p parses one `"key": value` member; .ot parses
`, member ... arbitrary-many, then closing brace`; .at the same for arrays. Fuel
only bounds recursion; any fuel larger than the input length suffices. -/
def parseStep : Nat → PMode → List Char → Option POut
  | 0, _, _ => none
  | n + 1, .v, l =>
    match skipWs l with
    | [] => none
    | c :: r =>
      if c = '{' then
        match skipWs r with
        | [] => none
        | c2 :: r2 =>
          if c2 = '}' then some (.oneVal (.obj []) r2)
          else
            match parseStep n .p (c2 :: r2) with
            | some (.onePair k v r3) =>
              match parseStep n .ot r3 with
              | some (.objMembers ps r4) => some (.oneVal (.obj (normKVs ((k, v) :: ps))) r4)
              | _ => none
            | _ => none
      else if c = '[' then
        match skipWs r with
        | [] => none
        | c2 :: r2 =>
          if c2 = ']' then some (.oneVal (.arr []) r2)
          else
            match parseStep n .v (c2 :: r2) with
            | some (.oneVal v r3) =>
              match parseStep n .at r3 with
              | some (.arrElems vs r4) => some (.oneVal (.arr (v :: vs)) r4)
              | _ => none
            | _ => none
      else if c = '"' then
        match parseStrF n r with
        | none => none
        | some (s, r2) => some (.oneVal (.str (String.mk s)) r2)
      else if c = 'n' then
        match r with
        | 'u' :: 'l' :: 'l' :: r2 => some (.oneVal .null r2)
        | _ => none
      else if c = 't' then
        match r with
        | 'r' :: 'u' :: 'e' :: r2 => some (.oneVal (.bool true) r2)
        | _ => none
      else if c = 'f' then
        match r with
        | 'a' :: 'l' :: 's' :: 'e' :: r2 => some (.oneVal (.bool false) r2)
        | _ => none
      else none
  | n + 1, .p, l =>
    match skipWs l with
    | [] => none
    | c :: r =>
      if c = '"' then
        match parseStrF n r with
        | none => none
        | some (s, r2) =>
          match skipWs r2 with
          | [] => none
          | c2 :: r3 =>
            if c2 = ':' then
              match parseStep n .v r3 with
              | some (.oneVal v r4) => some (.onePair (String.mk s) v r4)
              | _ => none
            else none
      else none
  | n + 1, .ot, l =>
    match skipWs l with
    | [] => none
    | c :: r =>
      if c = '}' then some (.objMembers [] r)
      else if c = ',' then
        match parseStep n .p r with
        | some (.onePair k v r2) =>
          match parseStep n .ot r2 with
          | some (.objMembers ps r3) => some (.objMembers ((k, v) :: ps) r3)
          | _ => none
        | _ => none
      else none
  | n + 1, .at, l =>
    match skipWs l with
    | [] => none
    | c :: r =>
      if c = ']' then some (.arrElems [] r)
      else if c = ',' then
        match parseStep n .v r with
        | some (.oneVal v r2) =>
          match parseStep n .at r2 with
          | some (.arrElems vs r3) => some (.arrElems (v :: vs) r3)
          | _ => none
        | _ => none
      else none

/-- Model of JSON.parse on a whole text: one value must account for the entire
input up to trailing whitespace. -/
def parseJ (l : List Char) : Option JVal :=
  match parseStep (l.length + 1) .v l with
  | some (.oneVal v rest) => if skipWs rest = [] then some v else none
  | _ => none

/-- Drop trailing whitespace. -/
def trimTail (l : List Char) : List Char := (l.reverse.dropWhile wsB).reverse

/-- Model of String.prototype.trim on the modeled whitespace set. -/
def trimL (l : List Char) : List Char := trimTail (l.dropWhile wsB)

/-- Model of `.replace(/^```json\s*/i, "")`: if the text starts with three
backticks followed by "json" in any letter case, drop those seven characters and
any following whitespace. -/
def dropJsonFenceHead (l : List Char) : List Char :=
  if l.take 3 = [tick, tick, tick] ∧
      ((l.drop 3).take 4).map Char.toLower = ['j', 's', 'o', 'n']
  then (l.drop 7).dropWhile wsB else l

/-- Model of `.replace(/^```\s*/i, "")`. -/
def dropFenceHead (l : List Char) : List Char :=
  if l.take 3 = [tick, tick, tick] then (l.drop 3).dropWhile wsB else l

/-- Model of `.replace(/```\s*$/i, "")`: the only possible match of this pattern
is three backticks followed by whitespace running to the end of the text. -/
def dropFenceTail (l : List Char) : List Char :=
  let r := l.reverse.dropWhile wsB
  if r.take 3 = [tick, tick, tick] then (r.drop 3).reverse else l

/-- Model of `clean.match(/(\{[\s\S]*\})/)` followed by taking the match when it
exists: the regex is greedy, so the match runs from the first opening brace to
the last closing brace of the whole text, provided that closing brace comes after
the opening one; otherwise the text is left unchanged. -/
def extractObject (l : List Char) : List Char :=
  let suf := l.dropWhile (fun c => c != '{')
  let cut := (suf.reverse.dropWhile (fun c => c != '}')).reverse
  if cut.isEmpty then l else cut

/-- Does the list start with a character that may follow a backslash in a JSON
escape sequence? This is the lookahead class of the repair regex
`/\\(?!["\\/bfnrtu])/g`. -/
def escWhitelistNext : List Char → Bool
  | [] => false
  | c :: _ =>
    c = '"' || c = '\\' || c = '/' || c = 'b' || c = 'f' || c = 'n' || c = 'r' ||
      c = 't' || c = 'u'

/-- Model of `clean.replace(/\\(?!["\\/bfnrtu])/g, "\\\\")`: every backslash not
followed by a recognized escape character is doubled. The lookahead does not
consume, so the character after a doubled backslash is scanned in turn. -/
def fixBackslashes : List Char → List Char
  | [] => []
  | c :: r =>
    if c = '\\' then
      if escWhitelistNext r then c :: fixBackslashes r else c :: c :: fixBackslashes r
    else c :: fixBackslashes r

/-- The parse attempt of the sanitizer: strict parse first, and on failure one
retry on the backslash-repaired text. -/
def parseStage (clean : List Char) : Option JVal :=
  match parseJ clean with
  | some v => some v
  | none => parseJ (fixBackslashes clean)

/-- Model of `.replace(/\r\n/g, "\n")`. -/
def replCRLF : List Char → List Char
  | '\r' :: '\n' :: r => '\n' :: replCRLF r
  | c :: r => c :: replCRLF r
  | [] => []

/-- Model of `.replace(/\r/g, "\n")`. -/
def replCR (l : List Char) : List Char := l.map (fun c => if c = '\r' then '\n' else c)

/-- Split a list at the first character satisfying the test, dropping that
character; none if no character satisfies it. -/
def splitAtP (p : Char → Bool) : List Char → Option (List Char × List Char)
  | [] => none
  | c :: r =>
    if p c then some ([], r)
    else
      match splitAtP p r with
      | some (a, b) => some (c :: a, b)
      | none => none

/-- The character class ["':=] stripped from node labels. -/
def badLabelChar (c : Char) : Bool := c = '"' || c = apos || c = ':' || c = '='

/-- Fueled model of `.replace(/\[([^\]]*?)["':=]([^\]]*?)\]/g, (_, a, b) => `...`)`
with replacement `[a b]`: scanning left to right, at each opening bracket the
span up to the first closing bracket is examined; if it contains a character from
["':=], the match runs from the bracket over that span, the first such character
is replaced by a space, and scanning resumes after the closing bracket. A span
without such a character, or with no closing bracket anywhere after it, admits no
match starting inside it. Any fuel larger than the input length suffices. -/
def stripSqF : Nat → List Char → List Char
  | 0, l => l
  | _ + 1, [] => []
  | n + 1, c :: r =>
    if c = '[' then
      match splitAtP (fun d => d = ']') r with
      | none => c :: r
      | some (body, rest) =>
        match splitAtP badLabelChar body with
        | none => c :: (body ++ ']' :: stripSqF n rest)
        | some (a, b) => c :: (a ++ ' ' :: (b ++ ']' :: stripSqF n rest))
    else c :: stripSqF n r

/-- The curly-brace companion `.replace(/\{([^}]*?)["':=]([^}]*?)\}/g, ...)` with
replacement of the same shape. -/
def stripCuF : Nat → List Char → List Char
  | 0, l => l
  | _ + 1, [] => []
  | n + 1, c :: r =>
    if c = '{' then
      match splitAtP (fun d => d = '}') r with
      | none => c :: r
      | some (body, rest) =>
        match splitAtP badLabelChar body with
        | none => c :: (body ++ '}' :: stripCuF n rest)
        | some (a, b) => c :: (a ++ ' ' :: (b ++ '}' :: stripCuF n rest))
    else c :: stripCuF n r

/-- One pass of the square-bracket label replace over a whole text. -/
def stripSquare (l : List Char) : List Char := stripSqF (l.length + 1) l

/-- One pass of the curly-brace label replace over a whole text. -/
def stripCurly (l : List Char) : List Char := stripCuF (l.length + 1) l

/-- The mermaidCode sanitization of POST /api/analyze in inkparse-server.js:
carriage-return normalization, then the square-bracket label replace, then the
curly-brace label replace. -/
def sanitizeMermaid (s : String) : String :=
  String.mk (stripCurly (stripSquare (replCR (replCRLF s.data))))

/-- Does the list start with a character of the Markdown whitelist of the notes
cleanup regex `/\\(?![*_`#>\-\[\]])/g`? -/
def mdEscapeNext : List Char → Bool
  | [] => false
  | c :: _ =>
    c = '*' || c = '_' || c = tick || c = '#' || c = '>' || c = '-' || c = '[' || c = ']'

/-- Model of `parsed.notes.replace(/\\(?![*_`#>\-\[\]])/g, "")`: every backslash
not followed by a Markdown-significant character is removed. -/
def stripNotesBS : List Char → List Char
  | [] => []
  | c :: r =>
    if c = '\\' then
      if mdEscapeNext r then c :: stripNotesBS r else stripNotesBS r
    else c :: stripNotesBS r

/-- The notes cleanup as a string function. -/
def stripNotesBackslashes (s : String) : String := String.mk (stripNotesBS s.data)

/-- JavaScript truthiness of a parsed JSON value of the modeled subset. -/
def jsTruthy : JVal → Bool
  | .null => false
  | .bool b => b
  | .str s => s != ""
  | .arr _ => true
  | .obj _ => true

/-- Truthiness of a property access, where an absent property reads undefined. -/
def truthyOpt : Option JVal → Bool
  | some v => jsTruthy v
  | none => false

/-- The failures the sanitize region can produce. emptyUpstream models the
`Empty response from OpenAI.` throw, unparsable the `Could not parse AI response
as valid JSON` throw carrying the logged 600-character diagnostic slice of the
raw text, and typeError the JavaScript TypeError raised when `.replace` is
invoked on a truthy non-string field value, or a property of a null parse result
is accessed. -/
inductive SErr where
  | emptyUpstream : SErr
  | unparsable (diag : List Char) : SErr
  | typeError : SErr
deriving Repr, DecidableEq

/-- Model of `if (parsed.k) parsed.k = parsed.k.replace(...)` for a string method
f: an absent or falsy field is left alone, a truthy string field is rewritten in
place, and a truthy non-string field has no .replace method, raising a
TypeError. -/
def sanStringField (f : String → String) (k : String) (kvs : List (String × JVal)) :
    Except SErr (List (String × JVal)) :=
  match lookupKV kvs k with
  | none => .ok kvs
  | some w =>
    if jsTruthy w then
      match w with
      | .str s => .ok (insertKV kvs k (.str (f s)))
      | _ => .error .typeError
    else .ok kvs

/-- Model of `if (!parsed.k) parsed.k = v`. -/
def defaultField (kvs : List (String × JVal)) (k : String) (v : JVal) :
    List (String × JVal) :=
  if truthyOpt (lookupKV kvs k) then kvs else insertKV kvs k v

/-- The field sanitization of POST /api/analyze (inkparse-server.js lines
227-242) applied to the parsed value: mermaidCode sanitization, notes backslash
cleanup, then the title and subject defaults. Property access on a null parse
result throws; a primitive or array parse result passes through unchanged, since
property writes on those do not appear in the JSON response. -/
def analyzeFields : JVal → Except SErr JVal
  | .null => .error .typeError
  | .obj kvs =>
    match sanStringField sanitizeMermaid "mermaidCode" kvs with
    | .error e => .error e
    | .ok kvs1 =>
      match sanStringField stripNotesBackslashes "notes" kvs1 with
      | .error e => .error e
      | .ok kvs2 =>
        let kvs3 := defaultField kvs2 "title" (.str "Handwritten Notes")
        let kvs4 := defaultField kvs3 "subject" (.str "General")
        .ok (.obj kvs4)
  | v => .ok v

/-- The field sanitization of POST /api/generate-doc (the second unnamed server
variant, lines 384-393): the five documented defaults, then carriage-return
normalization of callFlowMermaid. -/
def docFields : JVal → Except SErr JVal
  | .null => .error .typeError
  | .obj kvs =>
    let kvs1 := defaultField kvs "title" (.str "AI Agent Documentation")
    let kvs2 := defaultField kvs1 "subtitle" (.str "System overview and behaviour guide")
    let kvs3 := defaultField kvs2 "sections" (.arr [])
    let kvs4 := defaultField kvs3 "keyHighlights" (.arr [])
    let kvs5 := defaultField kvs4 "tags" (.arr [])
    match sanStringField (fun s => String.mk (replCR (replCRLF s.data))) "callFlowMermaid" kvs5 with
    | .error e => .error e
    | .ok kvs6 => .ok (.obj kvs6)
  | v => .ok v

/-- The text cleanup preceding the parse: fence stripping, a trim, then the brace
extraction. -/
def cleanStage (t : List Char) : List Char :=
  extractObject (trimL (dropFenceTail (dropFenceHead (dropJsonFenceHead t))))

/-- The full response sanitizer of POST /api/analyze: trim, the empty check, the
text cleanup, the parse with one repair retry, and the field sanitization. -/
def analyzeSanitize (raw : String) : Except SErr JVal :=
  if (trimL raw.data).isEmpty then .error .emptyUpstream
  else
    match parseStage (cleanStage (trimL raw.data)) with
    | none => .error (.unparsable ((trimL raw.data).take 600))
    | some v => analyzeFields v

/-- The full response sanitizer of POST /api/generate-doc. -/
def docSanitize (raw : String) : Except SErr JVal :=
  if (trimL raw.data).isEmpty then .error .emptyUpstream
  else
    match parseStage (cleanStage (trimL raw.data)) with
    | none => .error (.unparsable ((trimL raw.data).take 600))
    | some v => docFields v

/-- One entry of the images array of a POST /api/analyze request body. An absent
field and an empty string are both falsy, matching the JavaScript checks. -/
structure ImageEntry where
  imageBase64 : Option String
  imageMime : Option String
deriving Repr

/-- The request body fields of POST /api/analyze that the normalizer reads. -/
structure AnalyzeReq where
  imageBase64 : Option String := none
  imageMime : Option String := none
  images : Option (List ImageEntry) := none

/-- Truthiness of an optional string request field. -/
def truthyStr : Option String → Bool
  | some s => s != ""
  | none => false

/-- The three rejection kinds of the request normalizer. -/
inductive ReqErr where
  | missingInput : ReqErr
  | tooManyImages : ReqErr
  | malformedImageEntry : ReqErr
deriving Repr, DecidableEq

/-- The single-image fallback branch: `else if (imageBase64) ... else 400`. -/
def fallbackSingle (req : AnalyzeReq) : Except ReqErr (List ImageEntry) :=
  if truthyStr req.imageBase64 then
    .ok [⟨req.imageBase64,
      some (match req.imageMime with
        | some m => if m = "" then "image/jpeg" else m
        | none => "image/jpeg")⟩]
  else .error .missingInput

/-- The branch choosing between the images array and the single-image form,
including the malformed-entry check of the array branch. -/
def pickImageList (req : AnalyzeReq) : Except ReqErr (List ImageEntry) :=
  match req.images with
  | some imgs =>
    if imgs.length > 0 then
      if imgs.any (fun e => !truthyStr e.imageBase64) then .error .malformedImageEntry
      else .ok imgs
    else fallbackSingle req
  | none => fallbackSingle req

/-- The request normalizer of POST /api/analyze (inkparse-server.js lines
154-174): input-shape selection, the malformed-entry check, then the ten-image
ceiling. -/
def normalizeAnalyze (req : AnalyzeReq) : Except ReqErr (List ImageEntry) :=
  match pickImageList req with
  | .error e => .error e
  | .ok imgs => if imgs.length > 10 then .error .tooManyImages else .ok imgs

/-- An upstream model-call failure: an optional HTTP-like status attached to the
error object, and its message. -/
structure UpFail where
  status : Option Nat
  message : String

/-- An HTTP response of the endpoint: a 200 JSON body, or a status with an error
message. -/
inductive HttpOut where
  | ok (body : JVal) : HttpOut
  | err (status : Nat) (message : String) : HttpOut

/-- The 400 messages of the request normalizer. -/
def reqErrMsg : ReqErr → String
  | .missingInput => "Missing imageBase64 or images array in request body."
  | .tooManyImages => "Maximum 10 images per request."
  | .malformedImageEntry => "Each image entry must include an imageBase64 field."

/-- The catch-block mapping of an upstream failure carrying a status
(inkparse-server.js lines 250-256). -/
def upstreamOut (u : UpFail) : HttpOut :=
  match u.status with
  | some 401 => .err 401 "Invalid OpenAI API key. Check your .env file."
  | some 429 => .err 429 "OpenAI rate limit reached — please wait a moment and try again."
  | some 400 => .err 400 ("Bad request to OpenAI: " ++ u.message)
  | some 413 => .err 413 "Image(s) too large. Reduce file size and try again."
  | some 500 => .err 502 "OpenAI service error. Try again shortly."
  | _ => .err 500 (if u.message = "" then "An unexpected error occurred." else u.message)

/-- The catch-block mapping of a sanitize failure: such errors carry no status,
so they reach the final 500 branch with their message. The unparsable and
typeError messages also carry engine-generated text not modeled here. -/
def sanErrMsg : SErr → String
  | .emptyUpstream => "Empty response from OpenAI."
  | .unparsable _ => "Could not parse AI response as valid JSON."
  | .typeError => "TypeError"

/-- The POST /api/analyze handler over an oracle standing for the upstream model
call: normalize the request, call the model, sanitize the completion, and map
each failure as the code does. The oracle is a parameter so that independence of
the response from it expresses that no model call is performed. -/
def analyzeEndpoint (req : AnalyzeReq)
    (oracle : List ImageEntry → Except UpFail String) : HttpOut :=
  match normalizeAnalyze req with
  | .error e => .err 400 (reqErrMsg e)
  | .ok imgs =>
    match oracle imgs with
    | .error u => upstreamOut u
    | .ok completion =>
      match analyzeSanitize completion with
      | .error se => .err 500 (sanErrMsg se)
      | .ok v => .ok v

/-- The key list of an object member list. -/
def keysOf (kvs : List (String × JVal)) : List String := kvs.map Prod.fst

/-- Pairwise distinctness of a key list. -/
def nodupKeys : List String → Bool
  | [] => true
  | k :: t => !t.contains k && nodupKeys t

mutual
/-- Well-formedness of a value as JSON.stringify input: every object, anywhere
inside the value, has pairwise distinct keys. JSON.parse collapses duplicates, so
every value a JavaScript program holds satisfies this. -/
def wfJ : JVal → Bool
  | .null => true
  | .bool _ => true
  | .str _ => true
  | .arr xs => wfArr xs
  | .obj kvs => nodupKeys (keysOf kvs) && wfMembers kvs

/-- Well-formedness of a list of array elements. -/
def wfArr : List JVal → Bool
  | [] => true
  | x :: xs => wfJ x && wfArr xs

/-- Well-formedness of the values of an object member list. -/
def wfMembers : List (String × JVal) → Bool
  | [] => true
  | (_, v) :: t => wfJ v && wfMembers t
end

/-- Every backslash of the list is followed by a Markdown-whitelist character. -/
def notesClean : List Char → Bool
  | [] => true
  | c :: r => if c = '\\' then mdEscapeNext r && notesClean r else notesClean r

/-- Is the value a string? -/
def isStr : JVal → Bool
  | .str _ => true
  | _ => false

/-- Is the value a JSON array (sequence)? -/
def isArr : JVal → Bool
  | .arr _ => true
  | _ => false

/-- The field value is truthy but has no .replace method. -/
def badStrField (kvs : List (String × JVal)) (k : String) : Bool :=
  match lookupKV kvs k with
  | some w => jsTruthy w && !isStr w
  | none => false

/-- A parse result on which the field-sanitization code of /api/analyze throws a
TypeError: the null value, or an object whose truthy mermaidCode or notes value
is not a string. -/
def badParsed : JVal → Bool
  | .null => true
  | .obj kvs => badStrField kvs "mermaidCode" || badStrField kvs "notes"
  | _ => false

theorem skipWs_cons_nonws {c : Char} {l : List Char} (h : wsB c = false) :
    skipWs (c :: l) = c :: l := by
  simp [skipWs, List.dropWhile_cons, h]

theorem mk_data (s : String) : String.mk s.data = s := by
  cases s
  rfl

theorem lookupKV_insertKV_self (kvs : List (String × JVal)) (k : String) (v : JVal) :
    lookupKV (insertKV kvs k v) k = some v := by
  induction kvs with
  | nil => simp [insertKV, lookupKV]
  | cons p t ih =>
    obtain ⟨k', v'⟩ := p
    by_cases h : k' = k
    · simp [insertKV, lookupKV, h]
    · simp [insertKV, lookupKV, h, ih]

theorem lookupKV_insertKV_ne (kvs : List (String × JVal)) (k k' : String) (v : JVal)
    (h : k' ≠ k) : lookupKV (insertKV kvs k v) k' = lookupKV kvs k' := by
  induction kvs with
  | nil =>
    simp only [insertKV, lookupKV]
    rw [if_neg (fun hh => h hh.symm)]
  | cons p t ih =>
    obtain ⟨k0, v0⟩ := p
    by_cases h0 : k0 = k
    · subst h0
      simp only [insertKV, if_pos rfl, lookupKV]
      rw [if_neg (fun hh => h hh.symm), if_neg (fun hh => h hh.symm)]
    · simp only [insertKV, if_neg h0]
      by_cases h1 : k0 = k'
      · simp [lookupKV, h1]
      · simp [lookupKV, h1, ih]

theorem insertKV_self_of_lookup {kvs : List (String × JVal)} {k : String} {v : JVal}
    (h : lookupKV kvs k = some v) : insertKV kvs k v = kvs := by
  induction kvs with
  | nil => simp [lookupKV] at h
  | cons p t ih =>
    obtain ⟨k0, v0⟩ := p
    by_cases h0 : k0 = k
    · subst h0
      simp [lookupKV] at h
      simp [insertKV, h]
    · simp [lookupKV, h0] at h
      simp [insertKV, h0, ih h]

theorem insertKV_fresh {kvs : List (String × JVal)} {k : String} (v : JVal)
    (h : k ∉ keysOf kvs) : insertKV kvs k v = kvs ++ [(k, v)] := by
  induction kvs with
  | nil => simp [insertKV]
  | cons p t ih =>
    obtain ⟨k0, v0⟩ := p
    simp only [keysOf, List.map_cons, List.mem_cons, not_or] at h
    have hne : k0 ≠ k := fun hh => h.1 hh.symm
    simp [insertKV, hne, ih (by simpa [keysOf] using h.2)]

theorem nodupKeys_cons {k : String} {t : List String} (h : nodupKeys (k :: t) = true) :
    k ∉ t ∧ nodupKeys t = true := by
  simp only [nodupKeys, Bool.and_eq_true, Bool.not_eq_true'] at h
  constructor
  · intro hmem
    have hc : t.contains k = true := by simpa [List.contains] using List.elem_iff.2 hmem
    rw [h.1] at hc
    exact Bool.false_ne_true hc
  · exact h.2

theorem foldl_insert_fresh : ∀ (ps acc : List (String × JVal)),
    (∀ p ∈ ps, p.1 ∉ keysOf acc) → nodupKeys (keysOf ps) = true →
    ps.foldl (fun a p => insertKV a p.1 p.2) acc = acc ++ ps := by
  intro ps
  induction ps with
  | nil => simp
  | cons p t ih =>
    intro acc hdisj hnd
    obtain ⟨k, v⟩ := p
    have hnd' := nodupKeys_cons (by simpa [keysOf] using hnd)
    simp only [List.foldl_cons]
    rw [insertKV_fresh v (hdisj (k, v) (by simp))]
    rw [ih (acc ++ [(k, v)]) ?_ (by simpa [keysOf] using hnd'.2)]
    · simp
    · intro q hq
      simp only [keysOf, List.map_append, List.mem_append, not_or]
      constructor
      · have := hdisj q (by simp [hq])
        simpa [keysOf] using this
      · simp only [List.map_cons, List.map_nil, List.mem_singleton]
        intro hh
        have hmem : q.1 ∈ keysOf t := List.mem_map.2 ⟨q, hq, rfl⟩
        rw [hh] at hmem
        have : k ∉ keysOf t := by simpa [keysOf] using hnd'.1
        exact this hmem

theorem normKVs_eq_self {kvs : List (String × JVal)} (h : nodupKeys (keysOf kvs) = true) :
    normKVs kvs = kvs := by
  have := foldl_insert_fresh kvs [] (by intro p _; simp [keysOf]) h
  simpa [normKVs] using this

theorem parseStrF_esc : ∀ (s : List Char) (n : Nat) (rest : List Char),
    (escString s).length < n →
    parseStrF n (escString s ++ '"' :: rest) = some (s, rest) := by
  intro s
  induction s with
  | nil =>
    intro n rest h
    obtain ⟨m, rfl⟩ : ∃ m, n = m + 1 := ⟨n - 1, by omega⟩
    simp [escString, parseStrF]
  | cons c s' ih =>
    intro n rest h
    simp only [escString, List.length_append] at h
    have hlen : 1 ≤ (escChar c).length ∧ (escChar c).length ≤ 2 := by
      unfold escChar
      split_ifs <;> simp
    obtain ⟨m, rfl⟩ : ∃ m, n = m + 1 := ⟨n - 1, by omega⟩
    have ihm : parseStrF m (escString s' ++ '"' :: rest) = some (s', rest) :=
      ih m rest (by omega)
    simp only [escString, List.append_assoc]
    unfold escChar
    split_ifs with h1 h2 h3 h4 h5 h6 h7
    · subst h1
      simp [parseStrF, pcons, ihm]
    · subst h2
      simp [parseStrF, pcons, ihm]
    · subst h3
      simp [parseStrF, pcons, ihm]
    · subst h4
      simp [parseStrF, pcons, ihm]
    · subst h5
      simp [parseStrF, pcons, ihm]
    · subst h6
      simp [parseStrF, pcons, ihm]
    · subst h7
      simp [parseStrF, pcons, ihm]
    · simp [parseStrF, pcons, ihm, h1, h2, h3, h4, h5, h6, h7]

theorem strL_head_struct : ∀ (v : JVal), ∃ c r, strL v = c :: r ∧ wsB c = false ∧ c ≠ ']' := by
  intro v
  match v with
  | .null => exact ⟨'n', _, rfl, by decide, by decide⟩
  | .bool true => exact ⟨'t', _, rfl, by decide, by decide⟩
  | .bool false => exact ⟨'f', _, rfl, by decide, by decide⟩
  | .str s => exact ⟨'"', _, rfl, by decide, by decide⟩
  | .arr [] => exact ⟨'[', _, rfl, by decide, by decide⟩
  | .arr (x :: xs) => exact ⟨'[', _, rfl, by decide, by decide⟩
  | .obj [] => exact ⟨'{', _, rfl, by decide, by decide⟩
  | .obj (p :: ps) => exact ⟨'{', _, rfl, by decide, by decide⟩

theorem strTailA_len : ∀ (xs : List JVal), 1 ≤ (strTailA xs).length := by
  intro xs
  cases xs <;> simp [strTailA]

theorem strTailO_len : ∀ (ps : List (String × JVal)), 1 ≤ (strTailO ps).length := by
  intro ps
  cases ps <;> simp [strTailO]

theorem strPair_len : ∀ (k : String) (v : JVal),
    (strL v).length + 3 ≤ (strPair (k, v)).length := by
  intro k v
  simp only [strPair, List.length_cons, List.length_append]
  omega

mutual
theorem parse_strL : ∀ (v : JVal), wfJ v = true → ∀ (n : Nat) (rest : List Char),
    (strL v).length < n → parseStep n .v (strL v ++ rest) = some (.oneVal v rest)
  | .null, _, n, rest, h => by
    obtain ⟨m, rfl⟩ : ∃ m, n = m + 1 := ⟨n - 1, by omega⟩
    simp [strL, parseStep, skipWs, wsB]
  | .bool true, _, n, rest, h => by
    obtain ⟨m, rfl⟩ : ∃ m, n = m + 1 := ⟨n - 1, by omega⟩
    simp [strL, parseStep, skipWs, wsB]
  | .bool false, _, n, rest, h => by
    obtain ⟨m, rfl⟩ : ∃ m, n = m + 1 := ⟨n - 1, by omega⟩
    simp [strL, parseStep, skipWs, wsB]
  | .str s, _, n, rest, h => by
    obtain ⟨m, rfl⟩ : ∃ m, n = m + 1 := ⟨n - 1, by omega⟩
    simp only [strL, List.length_cons, List.length_append, List.length_singleton] at h
    have hesc := parseStrF_esc s.data m rest (by omega)
    simp [strL, parseStep, skipWs, wsB, List.cons_append, List.append_assoc,
      hesc, mk_data]
  | .arr [], _, n, rest, h => by
    obtain ⟨m, rfl⟩ : ∃ m, n = m + 1 := ⟨n - 1, by omega⟩
    simp [strL, parseStep, skipWs, wsB]
  | .arr (x :: xs), hwf, n, rest, h => by
    have hx : wfJ x = true ∧ wfArr xs = true := by
      simpa [wfJ, wfArr, Bool.and_eq_true] using hwf
    have hta := strTailA_len xs
    simp only [strL, List.length_cons, List.length_append] at h
    obtain ⟨m, rfl⟩ : ∃ m, n = m + 1 := ⟨n - 1, by omega⟩
    obtain ⟨c, rx, hcx, hwsc, hnec⟩ := strL_head_struct x
    have hx1 : parseStep m .v (strL x ++ (strTailA xs ++ rest)) =
        some (.oneVal x (strTailA xs ++ rest)) := parse_strL x hx.1 m _ (by omega)
    have ht1 : parseStep m .at (strTailA xs ++ rest) = some (.arrElems xs rest) :=
      parse_strTailA xs hx.2 m rest (by omega)
    rw [hcx] at hx1
    simp only [List.cons_append, List.append_assoc] at hx1
    simp [strL, parseStep, skipWs, List.dropWhile_cons, hcx, hwsc, hnec,
      List.cons_append, List.append_assoc, hx1, ht1,
      (show wsB '[' = false by decide)]
  | .obj [], _, n, rest, h => by
    obtain ⟨m, rfl⟩ : ∃ m, n = m + 1 := ⟨n - 1, by omega⟩
    simp [strL, parseStep, skipWs, wsB]
  | .obj ((k, v) :: ps), hwf, n, rest, h => by
    have hw : (nodupKeys (keysOf ((k, v) :: ps)) = true) ∧ wfJ v = true ∧
        wfMembers ps = true := by
      simpa [wfJ, wfMembers, Bool.and_eq_true, and_assoc] using hwf
    have hto := strTailO_len ps
    have hpl := strPair_len k v
    simp only [strL, List.length_cons, List.length_append] at h
    obtain ⟨m, rfl⟩ : ∃ m, n = m + 1 := ⟨n - 1, by omega⟩
    have hp1 : parseStep m .p (strPair (k, v) ++ (strTailO ps ++ rest)) =
        some (.onePair k v (strTailO ps ++ rest)) :=
      parse_strPair k v hw.2.1 m _ (by omega)
    have ht1 : parseStep m .ot (strTailO ps ++ rest) = some (.objMembers ps rest) :=
      parse_strTailO ps hw.2.2 m rest (by omega)
    have hps : strPair (k, v) = '"' :: (escString k.data ++ '"' :: ':' :: strL v) := rfl
    rw [hps] at hp1
    simp only [List.cons_append, List.append_assoc] at hp1
    simp [strL, parseStep, skipWs, List.dropWhile_cons, hps,
      List.cons_append, List.append_assoc, hp1, ht1, normKVs_eq_self hw.1,
      (show wsB '{' = false by decide), (show wsB '"' = false by decide)]

theorem parse_strPair : ∀ (k : String) (v : JVal), wfJ v = true →
    ∀ (n : Nat) (rest : List Char), (strPair (k, v)).length < n →
    parseStep n .p (strPair (k, v) ++ rest) = some (.onePair k v rest)
  | k, v, hwf, n, rest, h => by
    have hpl := strPair_len k v
    simp only [strPair, List.length_cons, List.length_append] at h
    obtain ⟨m, rfl⟩ : ∃ m, n = m + 1 := ⟨n - 1, by omega⟩
    have hesc := parseStrF_esc k.data m (':' :: (strL v ++ rest)) (by omega)
    have hv1 : parseStep m .v (strL v ++ rest) = some (.oneVal v rest) :=
      parse_strL v hwf m rest (by simp only [strPair, List.length_cons,
        List.length_append] at hpl; omega)
    simp [strPair, parseStep, skipWs, wsB, List.cons_append, List.append_assoc,
      hesc, hv1, mk_data]

theorem parse_strTailA : ∀ (xs : List JVal), wfArr xs = true →
    ∀ (n : Nat) (rest : List Char), (strTailA xs).length < n →
    parseStep n .at (strTailA xs ++ rest) = some (.arrElems xs rest)
  | [], _, n, rest, h => by
    obtain ⟨m, rfl⟩ : ∃ m, n = m + 1 := ⟨n - 1, by omega⟩
    simp [strTailA, parseStep, skipWs, wsB]
  | y :: ys, hwf, n, rest, h => by
    have hy : wfJ y = true ∧ wfArr ys = true := by
      simpa [wfArr, Bool.and_eq_true] using hwf
    have hta := strTailA_len ys
    simp only [strTailA, List.length_cons, List.length_append] at h
    obtain ⟨m, rfl⟩ : ∃ m, n = m + 1 := ⟨n - 1, by omega⟩
    have hy1 : parseStep m .v (strL y ++ (strTailA ys ++ rest)) =
        some (.oneVal y (strTailA ys ++ rest)) := parse_strL y hy.1 m _ (by omega)
    have ht1 : parseStep m .at (strTailA ys ++ rest) = some (.arrElems ys rest) :=
      parse_strTailA ys hy.2 m rest (by omega)
    simp [strTailA, parseStep, skipWs, wsB, List.cons_append, List.append_assoc,
      hy1, ht1]

theorem parse_strTailO : ∀ (ps : List (String × JVal)), wfMembers ps = true →
    ∀ (n : Nat) (rest : List Char), (strTailO ps).length < n →
    parseStep n .ot (strTailO ps ++ rest) = some (.objMembers ps rest)
  | [], _, n, rest, h => by
    obtain ⟨m, rfl⟩ : ∃ m, n = m + 1 := ⟨n - 1, by omega⟩
    simp [strTailO, parseStep, skipWs, wsB]
  | (k, v) :: ps, hwf, n, rest, h => by
    have hv : wfJ v = true ∧ wfMembers ps = true := by
      simpa [wfMembers, Bool.and_eq_true] using hwf
    have hto := strTailO_len ps
    simp only [strTailO, List.length_cons, List.length_append] at h
    obtain ⟨m, rfl⟩ : ∃ m, n = m + 1 := ⟨n - 1, by omega⟩
    have hp1 : parseStep m .p (strPair (k, v) ++ (strTailO ps ++ rest)) =
        some (.onePair k v (strTailO ps ++ rest)) :=
      parse_strPair k v hv.1 m _ (by omega)
    have ht1 : parseStep m .ot (strTailO ps ++ rest) = some (.objMembers ps rest) :=
      parse_strTailO ps hv.2 m rest (by omega)
    simp [strTailO, parseStep, skipWs, wsB, List.cons_append, List.append_assoc,
      hp1, ht1]
end

theorem parseJ_strL (v : JVal) (hwf : wfJ v = true) : parseJ (strL v) = some v := by
  have h := parse_strL v hwf ((strL v).length + 1) [] (by omega)
  simp only [List.append_nil] at h
  simp [parseJ, h, skipWs]

theorem dropWhile_head_false {p : Char → Bool} :
    ∀ (l : List Char) (c : Char) (r : List Char),
    l.dropWhile p = c :: r → p c = false := by
  intro l
  induction l with
  | nil => intro c r h; simp at h
  | cons d t ih =>
    intro c r h
    by_cases hd : p d
    · rw [List.dropWhile_cons, if_pos hd] at h
      exact ih c r h
    · rw [List.dropWhile_cons, if_neg hd] at h
      cases h
      simpa using hd

theorem dropWhile_idem {p : Char → Bool} (l : List Char) :
    (l.dropWhile p).dropWhile p = l.dropWhile p := by
  cases h : l.dropWhile p with
  | nil => simp
  | cons c r =>
    rw [List.dropWhile_cons, if_neg (by simp [dropWhile_head_false _ _ _ h])]

theorem dropWhile_append_mid (p : List Char) (c : Char) (r : List Char)
    (hc : wsB c = false) :
    (p ++ c :: r).dropWhile wsB = p.dropWhile wsB ++ c :: r := by
  rw [List.dropWhile_append]
  by_cases h : (p.dropWhile wsB).isEmpty
  · simp [h, List.dropWhile_cons, hc, List.isEmpty_iff.1 h]
  · simp [h]

theorem trimTail_append_mid (x s : List Char) (c : Char) (hc : wsB c = false) :
    trimTail ((x ++ [c]) ++ s) = (x ++ [c]) ++ trimTail s := by
  unfold trimTail
  rw [show ((x ++ [c]) ++ s).reverse = s.reverse ++ c :: x.reverse by simp]
  rw [dropWhile_append_mid _ _ _ hc]
  simp [trimTail]

theorem trimL_mid (p s : List Char) (m : List Char) (c d : Char) (mr : List Char)
    (mf : List Char) (hm1 : m = c :: mr) (hm2 : m = mf ++ [d])
    (hc : wsB c = false) (hd : wsB d = false) :
    trimL (p ++ m ++ s) = p.dropWhile wsB ++ m ++ trimTail s := by
  unfold trimL
  rw [show p ++ m ++ s = p ++ (m ++ s) by simp]
  rw [hm1, List.cons_append, dropWhile_append_mid p c (mr ++ s) hc]
  rw [show p.dropWhile wsB ++ c :: (mr ++ s) = (p.dropWhile wsB ++ m) ++ s by
    simp [hm1]]
  rw [show p.dropWhile wsB ++ m = (p.dropWhile wsB ++ mf) ++ [d] by simp [hm2]]
  rw [trimTail_append_mid _ s d hd]
  have hmd : mf ++ [d] = c :: mr := by rw [← hm2, hm1]
  simp only [List.append_assoc, List.singleton_append]
  rw [show mf ++ d :: trimTail s = (mf ++ [d]) ++ trimTail s by simp, hmd]

theorem trimL_noop (m : List Char) (c d : Char) (mr mf : List Char)
    (hm1 : m = c :: mr) (hm2 : m = mf ++ [d]) (hc : wsB c = false)
    (hd : wsB d = false) : trimL m = m := by
  have := trimL_mid [] [] m c d mr mf hm1 hm2 hc hd
  simpa [trimTail] using this

theorem dropJsonFenceHead_ne {l : List Char} (h : ∀ r, l ≠ tick :: r) :
    dropJsonFenceHead l = l := by
  unfold dropJsonFenceHead
  rw [if_neg]
  intro hcond
  obtain ⟨h1, _⟩ := hcond
  cases l with
  | nil => simp at h1
  | cons c r =>
    simp only [List.take_succ_cons, List.cons.injEq] at h1
    exact h r (by rw [h1.1])

theorem dropFenceHead_ne {l : List Char} (h : ∀ r, l ≠ tick :: r) :
    dropFenceHead l = l := by
  unfold dropFenceHead
  rw [if_neg]
  intro h1
  cases l with
  | nil => simp at h1
  | cons c r =>
    simp only [List.take_succ_cons, List.cons.injEq] at h1
    exact h r (by rw [h1.1])

theorem dropFenceTail_ne {l : List Char}
    (h : ∀ r, l.reverse.dropWhile wsB ≠ tick :: r) : dropFenceTail l = l := by
  unfold dropFenceTail
  rw [if_neg]
  intro h1
  cases hr : l.reverse.dropWhile wsB with
  | nil => rw [hr] at h1; simp at h1
  | cons c r =>
    rw [hr] at h1
    simp only [List.take_succ_cons, List.cons.injEq] at h1
    exact h r (by rw [hr, h1.1])

theorem strTailO_last : ∀ (ps : List (String × JVal)), ∃ f, strTailO ps = f ++ ['}'] := by
  intro ps
  induction ps with
  | nil => exact ⟨[], rfl⟩
  | cons p t ih =>
    obtain ⟨f, hf⟩ := ih
    exact ⟨',' :: (strPair p ++ f), by simp [strTailO, hf]⟩

theorem strL_obj_shape (kvs : List (String × JVal)) :
    ∃ mr mf, strL (.obj kvs) = '{' :: mr ∧ strL (.obj kvs) = mf ++ ['}'] := by
  cases kvs with
  | nil => exact ⟨['}'], ['{'], rfl, rfl⟩
  | cons p ps =>
    obtain ⟨f, hf⟩ := strTailO_last ps
    refine ⟨strPair p ++ strTailO ps, '{' :: (strPair p ++ f), rfl, ?_⟩
    simp [strL, hf]

theorem extractObject_mid (p m s : List Char) (mr mf : List Char)
    (hm1 : m = '{' :: mr) (hm2 : m = mf ++ ['}'])
    (hp : ∀ c ∈ p, c ≠ '{') (hs : ∀ c ∈ s, c ≠ '}') :
    extractObject (p ++ m ++ s) = m := by
  have h1 : (p ++ m ++ s).dropWhile (fun c => c != '{') = m ++ s := by
    rw [show p ++ m ++ s = p ++ (m ++ s) by simp]
    rw [List.dropWhile_append]
    have hpe : p.dropWhile (fun c => c != '{') = [] := by
      rw [List.dropWhile_eq_nil_iff]
      intro c hc
      simpa using hp c hc
    rw [hpe]
    simp only [List.isEmpty_nil, if_pos]
    rw [hm1, List.cons_append, List.dropWhile_cons]
    simp
  have h2 : ((m ++ s).reverse.dropWhile (fun c => c != '}')).reverse = m := by
    rw [show (m ++ s).reverse = s.reverse ++ m.reverse by simp]
    rw [List.dropWhile_append]
    have hse : s.reverse.dropWhile (fun c => c != '}') = [] := by
      rw [List.dropWhile_eq_nil_iff]
      intro c hc
      simp only [List.mem_reverse] at hc
      simpa using hs c hc
    have hmr : m.reverse.dropWhile (fun c => c != '}') = m.reverse := by
      rw [hm2, show (mf ++ ['}']).reverse = '}' :: mf.reverse by simp]
      rw [List.dropWhile_cons]
      simp
    rw [hse]
    simp only [List.isEmpty_nil, if_pos, hmr, List.reverse_reverse]
  unfold extractObject
  simp only [h1, h2]
  rw [hm1]
  simp

theorem extractObject_obj (kvs : List (String × JVal)) :
    extractObject (strL (.obj kvs)) = strL (.obj kvs) := by
  obtain ⟨mr, mf, hm1, hm2⟩ := strL_obj_shape kvs
  have := extractObject_mid [] (strL (.obj kvs)) [] mr mf hm1 hm2
    (by intro c hc; simp at hc) (by intro c hc; simp at hc)
  simpa using this

theorem trimL_obj (kvs : List (String × JVal)) :
    trimL (strL (.obj kvs)) = strL (.obj kvs) := by
  obtain ⟨mr, mf, hm1, hm2⟩ := strL_obj_shape kvs
  exact trimL_noop _ '{' '}' mr mf hm1 hm2 (by decide) (by decide)

theorem cleanStage_obj (kvs : List (String × JVal)) :
    cleanStage (strL (.obj kvs)) = strL (.obj kvs) := by
  obtain ⟨mr, mf, hm1, hm2⟩ := strL_obj_shape kvs
  have hj : ∀ r, strL (.obj kvs) ≠ tick :: r := by
    intro r hr
    rw [hm1] at hr
    injection hr with h1 _
    exact (by decide : ('{' : Char) ≠ tick) h1
  have ht : ∀ r, (strL (.obj kvs)).reverse.dropWhile wsB ≠ tick :: r := by
    intro r hr
    rw [hm2, show (mf ++ ['}']).reverse = '}' :: mf.reverse by simp,
      List.dropWhile_cons, if_neg (by decide)] at hr
    injection hr with h1 _
    exact (by decide : ('}' : Char) ≠ tick) h1
  unfold cleanStage
  rw [dropJsonFenceHead_ne hj, dropFenceHead_ne hj, dropFenceTail_ne ht,
    trimL_noop _ '{' '}' mr mf hm1 hm2 (by decide) (by decide), extractObject_obj]

theorem mdEscapeNext_head (e : Char) (x y : List Char) :
    mdEscapeNext (e :: x) = mdEscapeNext (e :: y) := rfl

theorem stripNotesBS_clean : ∀ (l : List Char), notesClean (stripNotesBS l) = true := by
  intro l
  induction l with
  | nil => rfl
  | cons c r ih =>
    by_cases hc : c = '\\'
    · subst hc
      by_cases hw : mdEscapeNext r = true
      · cases r with
        | nil => simp [mdEscapeNext] at hw
        | cons e r2 =>
          have he : e ≠ '\\' := by
            intro hh
            rw [hh] at hw
            rw [show mdEscapeNext ('\\' :: r2) = false from rfl] at hw
            exact Bool.false_ne_true hw
          have hse : stripNotesBS (e :: r2) = e :: stripNotesBS r2 := by
            simp [stripNotesBS, he]
          have h1 : stripNotesBS ('\\' :: e :: r2) = '\\' :: (e :: stripNotesBS r2) := by
            rw [show stripNotesBS ('\\' :: e :: r2) = '\\' :: stripNotesBS (e :: r2) from by
              simp [stripNotesBS, hw]]
            rw [hse]
          have ih2 : notesClean (e :: stripNotesBS r2) = true := by
            have hi := ih
            rw [hse] at hi
            exact hi
          rw [h1]
          rw [show notesClean ('\\' :: (e :: stripNotesBS r2)) =
              (mdEscapeNext (e :: stripNotesBS r2) && notesClean (e :: stripNotesBS r2)) from by
            simp [notesClean]]
          rw [mdEscapeNext_head e (stripNotesBS r2) r2, hw, ih2]
          rfl
      · rw [show stripNotesBS ('\\' :: r) = stripNotesBS r from by
          simp [stripNotesBS, hw]]
        exact ih
    · rw [show stripNotesBS (c :: r) = c :: stripNotesBS r from by
        simp [stripNotesBS, hc]]
      rw [show notesClean (c :: stripNotesBS r) = notesClean (stripNotesBS r) from by
        simp [notesClean, hc]]
      exact ih

theorem stripNotesBS_of_clean : ∀ (l : List Char), notesClean l = true →
    stripNotesBS l = l := by
  intro l
  induction l with
  | nil => intro _; rfl
  | cons c r ih =>
    intro h
    by_cases hc : c = '\\'
    · subst hc
      rw [show notesClean ('\\' :: r) = (mdEscapeNext r && notesClean r) from by
        simp [notesClean]] at h
      rw [Bool.and_eq_true] at h
      rw [show stripNotesBS ('\\' :: r) = '\\' :: stripNotesBS r from by
        simp [stripNotesBS, h.1]]
      rw [ih h.2]
    · rw [show notesClean (c :: r) = notesClean r from by simp [notesClean, hc]] at h
      rw [show stripNotesBS (c :: r) = c :: stripNotesBS r from by
        simp [stripNotesBS, hc]]
      rw [ih h]

theorem data_mk (l : List Char) : (String.mk l).data = l := rfl

theorem stripNotes_idem (s : String) :
    stripNotesBackslashes (stripNotesBackslashes s) = stripNotesBackslashes s := by
  unfold stripNotesBackslashes
  rw [data_mk, stripNotesBS_of_clean _ (stripNotesBS_clean s.data)]

theorem sanStringField_none {f : String → String} {k : String}
    {kvs : List (String × JVal)} (h : lookupKV kvs k = none) :
    sanStringField f k kvs = .ok kvs := by
  simp [sanStringField, h]

theorem sanStringField_falsy {f : String → String} {k : String}
    {kvs : List (String × JVal)} {w : JVal} (h : lookupKV kvs k = some w)
    (hw : jsTruthy w = false) : sanStringField f k kvs = .ok kvs := by
  simp [sanStringField, h, hw]

theorem sanStringField_str {f : String → String} {k : String}
    {kvs : List (String × JVal)} {s : String} (h : lookupKV kvs k = some (.str s))
    (hs : jsTruthy (.str s) = true) :
    sanStringField f k kvs = .ok (insertKV kvs k (.str (f s))) := by
  simp [sanStringField, h, hs]

theorem sanStringField_err {f : String → String} {k : String}
    {kvs : List (String × JVal)} {w : JVal} (h : lookupKV kvs k = some w)
    (hw : jsTruthy w = true) (hns : ∀ s, w ≠ .str s) :
    sanStringField f k kvs = .error .typeError := by
  cases w with
  | str s => exact absurd rfl (hns s)
  | null => simp [jsTruthy] at hw
  | bool b => simp [sanStringField, h, hw]
  | arr xs => simp [sanStringField, h, hw]
  | obj o => simp [sanStringField, h, hw]

theorem sanStringField_fix {f : String → String} {k : String}
    {kvs : List (String × JVal)}
    (h : ∀ w, lookupKV kvs k = some w → jsTruthy w = true →
      ∃ s, w = .str s ∧ f s = s) : sanStringField f k kvs = .ok kvs := by
  cases hl : lookupKV kvs k with
  | none => exact sanStringField_none hl
  | some w =>
    by_cases hw : jsTruthy w
    · obtain ⟨s, rfl, hfix⟩ := h w hl hw
      rw [sanStringField_str hl hw, hfix, insertKV_self_of_lookup hl]
    · exact sanStringField_falsy hl (by simpa using hw)

theorem sanStringField_lookup_ne {f : String → String} {k : String}
    {kvs kvs' : List (String × JVal)} (h : sanStringField f k kvs = .ok kvs')
    (k' : String) (hk : k' ≠ k) : lookupKV kvs' k' = lookupKV kvs k' := by
  cases hl : lookupKV kvs k with
  | none =>
    rw [sanStringField_none hl] at h
    cases h
    rfl
  | some w =>
    by_cases hw : jsTruthy w
    · cases w with
      | str s =>
        rw [sanStringField_str hl hw] at h
        cases h
        exact lookupKV_insertKV_ne _ _ _ _ hk
      | null => simp [jsTruthy] at hw
      | bool b =>
        rw [sanStringField_err hl hw (by intro s hh; cases hh)] at h
        cases h
      | arr xs =>
        rw [sanStringField_err hl hw (by intro s hh; cases hh)] at h
        cases h
      | obj o =>
        rw [sanStringField_err hl hw (by intro s hh; cases hh)] at h
        cases h
    · rw [sanStringField_falsy hl (by simpa using hw)] at h
      cases h
      rfl

theorem sanStringField_lookup_same {f : String → String} {k : String}
    {kvs kvs' : List (String × JVal)} (h : sanStringField f k kvs = .ok kvs') :
    (lookupKV kvs' k = lookupKV kvs k ∧ truthyOpt (lookupKV kvs k) = false) ∨
    (∃ s, lookupKV kvs k = some (.str s) ∧ jsTruthy (.str s) = true ∧
      lookupKV kvs' k = some (.str (f s))) := by
  cases hl : lookupKV kvs k with
  | none =>
    rw [sanStringField_none hl] at h
    have hk2 : kvs' = kvs := by cases h; rfl
    subst hk2
    exact Or.inl ⟨hl, by simp [truthyOpt]⟩
  | some w =>
    by_cases hw : jsTruthy w
    · cases w with
      | str s =>
        rw [sanStringField_str hl hw] at h
        have hk2 : kvs' = insertKV kvs k (.str (f s)) := by cases h; rfl
        subst hk2
        exact Or.inr ⟨s, rfl, hw, lookupKV_insertKV_self _ _ _⟩
      | null => simp [jsTruthy] at hw
      | bool b =>
        rw [sanStringField_err hl hw (by intro s hh; cases hh)] at h
        cases h
      | arr xs =>
        rw [sanStringField_err hl hw (by intro s hh; cases hh)] at h
        cases h
      | obj o =>
        rw [sanStringField_err hl hw (by intro s hh; cases hh)] at h
        cases h
    · rw [sanStringField_falsy hl (by simpa using hw)] at h
      have hk2 : kvs' = kvs := by cases h; rfl
      subst hk2
      refine Or.inl ⟨hl, ?_⟩
      simpa [truthyOpt] using hw

theorem defaultField_truthy {kvs : List (String × JVal)} {k : String} {v : JVal}
    (h : truthyOpt (lookupKV kvs k) = true) : defaultField kvs k v = kvs := by
  unfold defaultField
  rw [if_pos h]

theorem defaultField_lookup_truthy (kvs : List (String × JVal)) (k : String)
    {v : JVal} (hv : jsTruthy v = true) :
    truthyOpt (lookupKV (defaultField kvs k v) k) = true := by
  unfold defaultField
  by_cases h : truthyOpt (lookupKV kvs k) = true
  · rw [if_pos h]
    exact h
  · rw [if_neg h, lookupKV_insertKV_self]
    simpa [truthyOpt] using hv

theorem defaultField_lookup_ne (kvs : List (String × JVal)) (k : String) (v : JVal)
    (k' : String) (hk : k' ≠ k) :
    lookupKV (defaultField kvs k v) k' = lookupKV kvs k' := by
  unfold defaultField
  by_cases h : truthyOpt (lookupKV kvs k)
  · simp [h]
  · simp only [if_neg h]
    exact lookupKV_insertKV_ne _ _ _ _ hk

theorem analyzeFields_ok_obj {v : JVal} {kvs' : List (String × JVal)}
    (h : analyzeFields v = .ok (.obj kvs')) :
    ∃ kvs0, v = .obj kvs0 ∧ analyzeFields (.obj kvs0) = .ok (.obj kvs') := by
  cases v with
  | null => simp [analyzeFields] at h
  | obj kvs0 => exact ⟨kvs0, rfl, h⟩
  | bool b => simp [analyzeFields] at h
  | str s => simp [analyzeFields] at h
  | arr xs => simp [analyzeFields] at h

theorem analyzeFields_obj_dissect {kvs kvs' : List (String × JVal)}
    (h : analyzeFields (.obj kvs) = .ok (.obj kvs')) :
    ∃ kvs1 kvs2,
      sanStringField sanitizeMermaid "mermaidCode" kvs = .ok kvs1 ∧
      sanStringField stripNotesBackslashes "notes" kvs1 = .ok kvs2 ∧
      kvs' = defaultField (defaultField kvs2 "title" (.str "Handwritten Notes"))
        "subject" (.str "General") := by
  cases h1 : sanStringField sanitizeMermaid "mermaidCode" kvs with
  | error e => simp [analyzeFields, h1] at h
  | ok kvs1 =>
    cases h2 : sanStringField stripNotesBackslashes "notes" kvs1 with
    | error e => simp [analyzeFields, h1, h2] at h
    | ok kvs2 =>
      simp only [analyzeFields, h1, h2, Except.ok.injEq, JVal.obj.injEq] at h
      exact ⟨kvs1, kvs2, rfl, h2, h.symm⟩

theorem analyzeFields_obj_out {kvs kvs' : List (String × JVal)}
    (h : analyzeFields (.obj kvs) = .ok (.obj kvs')) :
    truthyOpt (lookupKV kvs' "title") = true ∧
    truthyOpt (lookupKV kvs' "subject") = true ∧
    (∀ w, lookupKV kvs' "notes" = some w → jsTruthy w = true →
      ∃ s, w = .str s ∧ stripNotesBackslashes s = s) ∧
    (∀ w, lookupKV kvs' "mermaidCode" = some w → jsTruthy w = true →
      ∃ s0, w = .str (sanitizeMermaid s0)) := by
  obtain ⟨kvs1, kvs2, h1, h2, h3⟩ := analyzeFields_obj_dissect h
  subst h3
  refine ⟨?_, ?_, ?_, ?_⟩
  · rw [defaultField_lookup_ne _ _ _ _ (by decide)]
    exact defaultField_lookup_truthy _ _ (by decide)
  · exact defaultField_lookup_truthy _ _ (by decide)
  · intro w hw htr
    rw [defaultField_lookup_ne _ _ _ _ (by decide),
      defaultField_lookup_ne _ _ _ _ (by decide)] at hw
    rcases sanStringField_lookup_same h2 with ⟨heq, hfal⟩ | ⟨s, hls, hst, hlo⟩
    · rw [hw] at heq
      rw [← heq] at hfal
      simp [truthyOpt] at hfal
      rw [hfal] at htr
      exact absurd htr (by simp)
    · rw [hw] at hlo
      cases hlo
      exact ⟨stripNotesBackslashes s, rfl, stripNotes_idem s⟩
  · intro w hw htr
    rw [defaultField_lookup_ne _ _ _ _ (by decide),
      defaultField_lookup_ne _ _ _ _ (by decide),
      sanStringField_lookup_ne h2 _ (by decide)] at hw
    rcases sanStringField_lookup_same h1 with ⟨heq, hfal⟩ | ⟨s, hls, hst, hlo⟩
    · rw [hw] at heq
      rw [← heq] at hfal
      simp [truthyOpt] at hfal
      rw [hfal] at htr
      exact absurd htr (by simp)
    · rw [hw] at hlo
      cases hlo
      exact ⟨s, rfl⟩

theorem analyzeFields_fix {kvs : List (String × JVal)}
    (ht : truthyOpt (lookupKV kvs "title") = true)
    (hs : truthyOpt (lookupKV kvs "subject") = true)
    (hn : ∀ w, lookupKV kvs "notes" = some w → jsTruthy w = true →
      ∃ s, w = .str s ∧ stripNotesBackslashes s = s)
    (hm : ∀ w, lookupKV kvs "mermaidCode" = some w → jsTruthy w = true →
      ∃ s, w = .str s ∧ sanitizeMermaid s = s) :
    analyzeFields (.obj kvs) = .ok (.obj kvs) := by
  have h1 := sanStringField_fix (f := sanitizeMermaid) (k := "mermaidCode") hm
  have h2 := sanStringField_fix (f := stripNotesBackslashes) (k := "notes") hn
  simp only [analyzeFields, h1, h2]
  rw [defaultField_truthy ht, defaultField_truthy hs]

theorem analyzeSanitize_ok_dissect {raw : String} {r : JVal}
    (h : analyzeSanitize raw = .ok r) :
    ∃ v, parseStage (cleanStage (trimL raw.data)) = some v ∧
      analyzeFields v = .ok r := by
  unfold analyzeSanitize at h
  by_cases he : (trimL raw.data).isEmpty
  · rw [if_pos he] at h
    cases h
  · rw [if_neg he] at h
    cases hp : parseStage (cleanStage (trimL raw.data)) with
    | none => rw [hp] at h; cases h
    | some v =>
      rw [hp] at h
      exact ⟨v, rfl, h⟩

theorem analyzeSanitize_stringify_obj {kvs : List (String × JVal)}
    (hwf : wfJ (.obj kvs) = true)
    (hfix : analyzeFields (.obj kvs) = .ok (.obj kvs)) :
    analyzeSanitize (stringifyJ (.obj kvs)) = .ok (.obj kvs) := by
  obtain ⟨mr, mf, hm1, hm2⟩ := strL_obj_shape kvs
  have hp : parseStage (strL (.obj kvs)) = some (.obj kvs) := by
    unfold parseStage
    rw [parseJ_strL _ hwf]
  unfold analyzeSanitize stringifyJ
  rw [data_mk, trimL_obj, cleanStage_obj, hp]
  rw [if_neg (by rw [hm1]; simp)]
  exact hfix

theorem trimTail_idem (l : List Char) : trimTail (trimTail l) = trimTail l := by
  unfold trimTail
  rw [List.reverse_reverse, dropWhile_idem]

theorem mem_trimTail {c : Char} {l : List Char} (h : c ∈ trimTail l) : c ∈ l := by
  unfold trimTail at h
  rw [List.mem_reverse] at h
  have := (List.dropWhile_sublist wsB).subset h
  rwa [List.mem_reverse] at this

theorem mem_dropWhileWs {c : Char} {l : List Char} (h : c ∈ l.dropWhile wsB) :
    c ∈ l := (List.dropWhile_sublist wsB).subset h

theorem splitAtP_eq {p : Char → Bool} : ∀ {l a b : List Char},
    splitAtP p l = some (a, b) → ∃ d, p d = true ∧ l = a ++ d :: b := by
  intro l
  induction l with
  | nil => intro a b h; simp [splitAtP] at h
  | cons c r ih =>
    intro a b h
    by_cases hc : p c
    · rw [show splitAtP p (c :: r) = some ([], r) from by simp [splitAtP, hc]] at h
      have hab : a = [] ∧ b = r := by cases h; exact ⟨rfl, rfl⟩
      obtain ⟨rfl, rfl⟩ := hab
      exact ⟨c, hc, rfl⟩
    · rw [show splitAtP p (c :: r) = (match splitAtP p r with
        | some (x, y) => some (c :: x, y)
        | none => none) from by simp [splitAtP, hc]] at h
      cases hr : splitAtP p r with
      | none => rw [hr] at h; cases h
      | some xy =>
        obtain ⟨x, y⟩ := xy
        rw [hr] at h
        have hax : a = c :: x ∧ b = y := by cases h; exact ⟨rfl, rfl⟩
        obtain ⟨rfl, rfl⟩ := hax
        obtain ⟨d, hd, hl⟩ := ih hr
        exact ⟨d, hd, by rw [hl]; simp⟩

theorem mem_stripSqF : ∀ (n : Nat) (l : List Char) (c : Char),
    c ∈ stripSqF n l → c ∈ l ∨ c = ' ' := by
  intro n
  induction n with
  | zero => intro l c h; exact Or.inl h
  | succ n ih =>
    intro l c h
    cases l with
    | nil => simp [stripSqF] at h
    | cons c0 r =>
      by_cases h0 : c0 = '['
      · subst h0
        cases hsp : splitAtP (fun d => d = ']') r with
        | none =>
          rw [show stripSqF (n + 1) ('[' :: r) = '[' :: r from by
            simp [stripSqF, hsp]] at h
          exact Or.inl h
        | some br =>
          obtain ⟨body, rest⟩ := br
          obtain ⟨d, hd, hr⟩ := splitAtP_eq hsp
          have hd' : d = ']' := by simpa using hd
          subst hd'
          cases hsb : splitAtP badLabelChar body with
          | none =>
            rw [show stripSqF (n + 1) ('[' :: r) =
                '[' :: (body ++ ']' :: stripSqF n rest) from by
              simp [stripSqF, hsp, hsb]] at h
            simp only [List.mem_cons, List.mem_append] at h
            rcases h with h | h | h | h
            · exact Or.inl (by simp [h])
            · exact Or.inl (by simp [hr, h])
            · exact Or.inl (by simp [hr, h])
            · rcases ih rest c h with h2 | h2
              · exact Or.inl (by simp [hr, h2])
              · exact Or.inr h2
          | some ab =>
            obtain ⟨a, b⟩ := ab
            obtain ⟨e, hearg, hbody⟩ := splitAtP_eq hsb
            rw [show stripSqF (n + 1) ('[' :: r) =
                '[' :: (a ++ ' ' :: (b ++ ']' :: stripSqF n rest)) from by
              simp [stripSqF, hsp, hsb]] at h
            simp only [List.mem_cons, List.mem_append] at h
            rcases h with h | h | h | h | h | h
            · exact Or.inl (by simp [h])
            · exact Or.inl (by simp [hr, hbody, h])
            · exact Or.inr h
            · exact Or.inl (by simp [hr, hbody, h])
            · exact Or.inl (by simp [hr, h])
            · rcases ih rest c h with h2 | h2
              · exact Or.inl (by simp [hr, h2])
              · exact Or.inr h2
      · rw [show stripSqF (n + 1) (c0 :: r) = c0 :: stripSqF n r from by
          simp [stripSqF, h0]] at h
        simp only [List.mem_cons] at h
        rcases h with h | h
        · exact Or.inl (by simp [h])
        · rcases ih r c h with h2 | h2
          · exact Or.inl (by simp [h2])
          · exact Or.inr h2

theorem mem_stripCuF : ∀ (n : Nat) (l : List Char) (c : Char),
    c ∈ stripCuF n l → c ∈ l ∨ c = ' ' := by
  intro n
  induction n with
  | zero => intro l c h; exact Or.inl h
  | succ n ih =>
    intro l c h
    cases l with
    | nil => simp [stripCuF] at h
    | cons c0 r =>
      by_cases h0 : c0 = '{'
      · subst h0
        cases hsp : splitAtP (fun d => d = '}') r with
        | none =>
          rw [show stripCuF (n + 1) ('{' :: r) = '{' :: r from by
            simp [stripCuF, hsp]] at h
          exact Or.inl h
        | some br =>
          obtain ⟨body, rest⟩ := br
          obtain ⟨d, hd, hr⟩ := splitAtP_eq hsp
          have hd' : d = '}' := by simpa using hd
          subst hd'
          cases hsb : splitAtP badLabelChar body with
          | none =>
            rw [show stripCuF (n + 1) ('{' :: r) =
                '{' :: (body ++ '}' :: stripCuF n rest) from by
              simp [stripCuF, hsp, hsb]] at h
            simp only [List.mem_cons, List.mem_append] at h
            rcases h with h | h | h | h
            · exact Or.inl (by simp [h])
            · exact Or.inl (by simp [hr, h])
            · exact Or.inl (by simp [hr, h])
            · rcases ih rest c h with h2 | h2
              · exact Or.inl (by simp [hr, h2])
              · exact Or.inr h2
          | some ab =>
            obtain ⟨a, b⟩ := ab
            obtain ⟨e, hearg, hbody⟩ := splitAtP_eq hsb
            rw [show stripCuF (n + 1) ('{' :: r) =
                '{' :: (a ++ ' ' :: (b ++ '}' :: stripCuF n rest)) from by
              simp [stripCuF, hsp, hsb]] at h
            simp only [List.mem_cons, List.mem_append] at h
            rcases h with h | h | h | h | h | h
            · exact Or.inl (by simp [h])
            · exact Or.inl (by simp [hr, hbody, h])
            · exact Or.inr h
            · exact Or.inl (by simp [hr, hbody, h])
            · exact Or.inl (by simp [hr, h])
            · rcases ih rest c h with h2 | h2
              · exact Or.inl (by simp [hr, h2])
              · exact Or.inr h2
      · rw [show stripCuF (n + 1) (c0 :: r) = c0 :: stripCuF n r from by
          simp [stripCuF, h0]] at h
        simp only [List.mem_cons] at h
        rcases h with h | h
        · exact Or.inl (by simp [h])
        · rcases ih r c h with h2 | h2
          · exact Or.inl (by simp [h2])
          · exact Or.inr h2

theorem noCR_replCR (l : List Char) : '\r' ∉ replCR l := by
  intro h
  unfold replCR at h
  obtain ⟨a, _, ha⟩ := List.mem_map.1 h
  by_cases haa : a = '\r'
  · rw [if_pos haa] at ha
    exact absurd ha (by decide)
  · rw [if_neg haa] at ha
    exact haa ha

theorem noCR_sanitizeMermaid (s : String) : '\r' ∉ (sanitizeMermaid s).data := by
  intro h
  unfold sanitizeMermaid at h
  rw [data_mk] at h
  unfold stripCurly at h
  rcases mem_stripCuF _ _ _ h with h2 | h2
  · unfold stripSquare at h2
    rcases mem_stripSqF _ _ _ h2 with h3 | h3
    · exact noCR_replCR _ h3
    · exact absurd h3 (by decide)
  · exact absurd h2 (by decide)

theorem isStr_false_of {w : JVal} (h : ∀ s, w ≠ .str s) : isStr w = false := by
  cases w with
  | str s => exact absurd rfl (h s)
  | null => rfl
  | bool b => rfl
  | arr xs => rfl
  | obj o => rfl

theorem truthyOpt_ne_none {o : Option JVal} (h : truthyOpt o = true) : o ≠ none := by
  intro hn
  rw [hn] at h
  simp [truthyOpt] at h

theorem defaultField_present (kvs : List (String × JVal)) (k : String) (v : JVal) :
    lookupKV (defaultField kvs k v) k ≠ none := by
  unfold defaultField
  by_cases h : truthyOpt (lookupKV kvs k) = true
  · rw [if_pos h]
    exact truthyOpt_ne_none h
  · rw [if_neg h, lookupKV_insertKV_self]
    simp

theorem defaultField_falsy {kvs : List (String × JVal)} {k : String} (v : JVal)
    (h : truthyOpt (lookupKV kvs k) = false) :
    lookupKV (defaultField kvs k v) k = some v := by
  unfold defaultField
  rw [if_neg (by simp [h]), lookupKV_insertKV_self]

theorem sanStringField_error_dissect {f : String → String} {k : String}
    {kvs : List (String × JVal)} {e : SErr}
    (h : sanStringField f k kvs = .error e) :
    e = SErr.typeError ∧ ∃ w, lookupKV kvs k = some w ∧ jsTruthy w = true ∧
      isStr w = false := by
  cases hl : lookupKV kvs k with
  | none => rw [sanStringField_none hl] at h; cases h
  | some w =>
    by_cases hw : jsTruthy w
    · cases w with
      | str s => rw [sanStringField_str hl hw] at h; cases h
      | null => simp [jsTruthy] at hw
      | bool b =>
        rw [sanStringField_err hl hw (by intro s hh; cases hh)] at h
        exact ⟨by cases h; rfl, .bool b, rfl, hw, rfl⟩
      | arr xs =>
        rw [sanStringField_err hl hw (by intro s hh; cases hh)] at h
        exact ⟨by cases h; rfl, .arr xs, rfl, hw, rfl⟩
      | obj o =>
        rw [sanStringField_err hl hw (by intro s hh; cases hh)] at h
        exact ⟨by cases h; rfl, .obj o, rfl, hw, rfl⟩
    · rw [sanStringField_falsy hl (by simpa using hw)] at h; cases h

theorem analyzeFields_error {v : JVal} {e : SErr} (h : analyzeFields v = .error e) :
    e = SErr.typeError ∧ badParsed v = true := by
  cases v with
  | null => exact ⟨by cases h; rfl, rfl⟩
  | bool b => simp [analyzeFields] at h
  | str s => simp [analyzeFields] at h
  | arr xs => simp [analyzeFields] at h
  | obj kvs =>
    cases h1 : sanStringField sanitizeMermaid "mermaidCode" kvs with
    | error e1 =>
      rw [show analyzeFields (.obj kvs) = .error e1 from by
        simp [analyzeFields, h1]] at h
      have he : e = e1 := by cases h; rfl
      obtain ⟨ht, w, hl, hw, hns⟩ := sanStringField_error_dissect h1
      refine ⟨by rw [he, ht], ?_⟩
      simp [badParsed, badStrField, hl, hw, hns]
    | ok kvs1 =>
      cases h2 : sanStringField stripNotesBackslashes "notes" kvs1 with
      | error e2 =>
        rw [show analyzeFields (.obj kvs) = .error e2 from by
          simp [analyzeFields, h1, h2]] at h
        have he : e = e2 := by cases h; rfl
        obtain ⟨ht, w, hl, hw, hns⟩ := sanStringField_error_dissect h2
        have hl0 : lookupKV kvs "notes" = some w := by
          rw [← sanStringField_lookup_ne h1 "notes" (by decide)]
          exact hl
        refine ⟨by rw [he, ht], ?_⟩
        simp [badParsed, badStrField, hl0, hw, hns]
      | ok kvs2 => simp [analyzeFields, h1, h2] at h

theorem analyzeSanitize_error_cases {raw : String} {e : SErr}
    (h : analyzeSanitize raw = .error e) :
    e = .emptyUpstream ∨ (∃ d, e = .unparsable d) ∨
    (e = .typeError ∧ ∃ v, parseStage (cleanStage (trimL raw.data)) = some v ∧
      badParsed v = true) := by
  unfold analyzeSanitize at h
  by_cases he : (trimL raw.data).isEmpty
  · rw [if_pos he] at h
    exact Or.inl (by cases h; rfl)
  · rw [if_neg he] at h
    cases hp : parseStage (cleanStage (trimL raw.data)) with
    | none =>
      rw [hp] at h
      exact Or.inr (Or.inl ⟨_, by cases h; rfl⟩)
    | some v =>
      rw [hp] at h
      obtain ⟨ht, hb⟩ := analyzeFields_error h
      exact Or.inr (Or.inr ⟨ht, v, rfl, hb⟩)

theorem docFields_obj_dissect {kvs kvs' : List (String × JVal)}
    (h : docFields (.obj kvs) = .ok (.obj kvs')) :
    sanStringField (fun s => String.mk (replCR (replCRLF s.data))) "callFlowMermaid"
      (defaultField (defaultField (defaultField (defaultField (defaultField kvs
        "title" (.str "AI Agent Documentation"))
        "subtitle" (.str "System overview and behaviour guide"))
        "sections" (.arr []))
        "keyHighlights" (.arr []))
        "tags" (.arr [])) = .ok kvs' := by
  cases hc : sanStringField (fun s => String.mk (replCR (replCRLF s.data)))
      "callFlowMermaid"
      (defaultField (defaultField (defaultField (defaultField (defaultField kvs
        "title" (.str "AI Agent Documentation"))
        "subtitle" (.str "System overview and behaviour guide"))
        "sections" (.arr []))
        "keyHighlights" (.arr []))
        "tags" (.arr [])) with
  | error e => simp [docFields, hc] at h
  | ok kvs6 =>
    simp only [docFields, hc, Except.ok.injEq, JVal.obj.injEq] at h
    rw [← h]

theorem analyzeFields_defaults {kvs kvs' : List (String × JVal)}
    (h : analyzeFields (.obj kvs) = .ok (.obj kvs')) :
    (truthyOpt (lookupKV kvs "title") = false →
      lookupKV kvs' "title" = some (.str "Handwritten Notes")) ∧
    (truthyOpt (lookupKV kvs "subject") = false →
      lookupKV kvs' "subject" = some (.str "General")) ∧
    lookupKV kvs' "title" ≠ none ∧ lookupKV kvs' "subject" ≠ none := by
  obtain ⟨kvs1, kvs2, h1, h2, h3⟩ := analyzeFields_obj_dissect h
  have hpre : ∀ k, k ≠ "mermaidCode" → k ≠ "notes" →
      lookupKV kvs2 k = lookupKV kvs k := by
    intro k hk1 hk2
    rw [sanStringField_lookup_ne h2 _ hk2, sanStringField_lookup_ne h1 _ hk1]
  subst h3
  refine ⟨?_, ?_, ?_, ?_⟩
  · intro hf
    rw [defaultField_lookup_ne _ _ _ _ (by decide)]
    apply defaultField_falsy
    rw [hpre "title" (by decide) (by decide)]
    exact hf
  · intro hf
    apply defaultField_falsy
    rw [defaultField_lookup_ne _ _ _ _ (by decide), hpre "subject" (by decide) (by decide)]
    exact hf
  · rw [defaultField_lookup_ne _ _ _ _ (by decide)]
    exact defaultField_present _ _ _
  · exact defaultField_present _ _ _

theorem docFields_obj_out {kvs kvs' : List (String × JVal)}
    (h : docFields (.obj kvs) = .ok (.obj kvs')) :
    lookupKV kvs' "title" ≠ none ∧ lookupKV kvs' "subtitle" ≠ none ∧
    lookupKV kvs' "sections" ≠ none ∧ lookupKV kvs' "keyHighlights" ≠ none ∧
    lookupKV kvs' "tags" ≠ none ∧
    (truthyOpt (lookupKV kvs "title") = false →
      lookupKV kvs' "title" = some (.str "AI Agent Documentation")) ∧
    (truthyOpt (lookupKV kvs "subtitle") = false →
      lookupKV kvs' "subtitle" = some (.str "System overview and behaviour guide")) ∧
    (truthyOpt (lookupKV kvs "sections") = false →
      lookupKV kvs' "sections" = some (.arr [])) ∧
    (truthyOpt (lookupKV kvs "keyHighlights") = false →
      lookupKV kvs' "keyHighlights" = some (.arr [])) ∧
    (truthyOpt (lookupKV kvs "tags") = false →
      lookupKV kvs' "tags" = some (.arr [])) := by
  have hd := docFields_obj_dissect h
  refine ⟨?_, ?_, ?_, ?_, ?_, ?_, ?_, ?_, ?_, ?_⟩
  · rw [sanStringField_lookup_ne hd _ (by decide),
      defaultField_lookup_ne _ _ _ _ (by decide),
      defaultField_lookup_ne _ _ _ _ (by decide),
      defaultField_lookup_ne _ _ _ _ (by decide),
      defaultField_lookup_ne _ _ _ _ (by decide)]
    exact defaultField_present _ _ _
  · rw [sanStringField_lookup_ne hd _ (by decide),
      defaultField_lookup_ne _ _ _ _ (by decide),
      defaultField_lookup_ne _ _ _ _ (by decide),
      defaultField_lookup_ne _ _ _ _ (by decide)]
    exact defaultField_present _ _ _
  · rw [sanStringField_lookup_ne hd _ (by decide),
      defaultField_lookup_ne _ _ _ _ (by decide),
      defaultField_lookup_ne _ _ _ _ (by decide)]
    exact defaultField_present _ _ _
  · rw [sanStringField_lookup_ne hd _ (by decide),
      defaultField_lookup_ne _ _ _ _ (by decide)]
    exact defaultField_present _ _ _
  · rw [sanStringField_lookup_ne hd _ (by decide)]
    exact defaultField_present _ _ _
  · intro hf
    rw [sanStringField_lookup_ne hd _ (by decide),
      defaultField_lookup_ne _ _ _ _ (by decide),
      defaultField_lookup_ne _ _ _ _ (by decide),
      defaultField_lookup_ne _ _ _ _ (by decide),
      defaultField_lookup_ne _ _ _ _ (by decide)]
    exact defaultField_falsy _ hf
  · intro hf
    rw [sanStringField_lookup_ne hd _ (by decide),
      defaultField_lookup_ne _ _ _ _ (by decide),
      defaultField_lookup_ne _ _ _ _ (by decide),
      defaultField_lookup_ne _ _ _ _ (by decide)]
    apply defaultField_falsy
    rw [defaultField_lookup_ne _ _ _ _ (by decide)]
    exact hf
  · intro hf
    rw [sanStringField_lookup_ne hd _ (by decide),
      defaultField_lookup_ne _ _ _ _ (by decide),
      defaultField_lookup_ne _ _ _ _ (by decide)]
    apply defaultField_falsy
    rw [defaultField_lookup_ne _ _ _ _ (by decide),
      defaultField_lookup_ne _ _ _ _ (by decide)]
    exact hf
  · intro hf
    rw [sanStringField_lookup_ne hd _ (by decide),
      defaultField_lookup_ne _ _ _ _ (by decide)]
    apply defaultField_falsy
    rw [defaultField_lookup_ne _ _ _ _ (by decide),
      defaultField_lookup_ne _ _ _ _ (by decide),
      defaultField_lookup_ne _ _ _ _ (by decide)]
    exact hf
  · intro hf
    rw [sanStringField_lookup_ne hd _ (by decide)]
    apply defaultField_falsy
    rw [defaultField_lookup_ne _ _ _ _ (by decide),
      defaultField_lookup_ne _ _ _ _ (by decide),
      defaultField_lookup_ne _ _ _ _ (by decide),
      defaultField_lookup_ne _ _ _ _ (by decide)]
    exact hf

theorem docFields_ok_obj {v : JVal} {kvs' : List (String × JVal)}
    (h : docFields v = .ok (.obj kvs')) :
    ∃ kvs0, v = .obj kvs0 ∧ docFields (.obj kvs0) = .ok (.obj kvs') := by
  cases v with
  | null => simp [docFields] at h
  | obj kvs0 => exact ⟨kvs0, rfl, h⟩
  | bool b => simp [docFields] at h
  | str s => simp [docFields] at h
  | arr xs => simp [docFields] at h

theorem docSanitize_ok_dissect {raw : String} {r : JVal}
    (h : docSanitize raw = .ok r) :
    ∃ v, parseStage (cleanStage (trimL raw.data)) = some v ∧
      docFields v = .ok r := by
  unfold docSanitize at h
  by_cases he : (trimL raw.data).isEmpty
  · rw [if_pos he] at h
    cases h
  · rw [if_neg he] at h
    cases hp : parseStage (cleanStage (trimL raw.data)) with
    | none => rw [hp] at h; cases h
    | some v =>
      rw [hp] at h
      exact ⟨v, rfl, h⟩

theorem cleanStage_wrapped (kvs : List (String × JVal)) (pre post : List Char)
    (hpre1 : '{' ∉ pre) (hpre2 : tick ∉ pre)
    (hpost1 : '}' ∉ post) (hpost2 : tick ∉ post) :
    cleanStage (trimL (pre ++ strL (.obj kvs) ++ post)) = strL (.obj kvs) := by
  obtain ⟨mr, mf, hm1, hm2⟩ := strL_obj_shape kvs
  have htr : trimL (pre ++ strL (.obj kvs) ++ post) =
      pre.dropWhile wsB ++ strL (.obj kvs) ++ trimTail post :=
    trimL_mid pre post _ '{' '}' mr mf hm1 hm2 (by decide) (by decide)
  rw [htr]
  have hhead : ∀ r, (pre.dropWhile wsB ++ strL (.obj kvs) ++ trimTail post) ≠
      tick :: r := by
    intro r hr
    cases hp : pre.dropWhile wsB with
    | nil =>
      rw [hp, List.nil_append, hm1, List.cons_append] at hr
      injection hr with hcc _
      exact (by decide : ('{' : Char) ≠ tick) hcc
    | cons c p2 =>
      rw [hp] at hr
      simp only [List.cons_append] at hr
      injection hr with hcc _
      apply hpre2
      rw [← hcc]
      exact mem_dropWhileWs (hp ▸ List.mem_cons_self c p2)
  have hrevpost : (trimTail post).reverse = post.reverse.dropWhile wsB := by
    unfold trimTail
    rw [List.reverse_reverse]
  have htail : ∀ r,
      (pre.dropWhile wsB ++ strL (.obj kvs) ++ trimTail post).reverse.dropWhile wsB ≠
      tick :: r := by
    intro r hr
    rw [show (pre.dropWhile wsB ++ strL (.obj kvs) ++ trimTail post).reverse =
        (trimTail post).reverse ++ ((strL (.obj kvs)).reverse ++
          (pre.dropWhile wsB).reverse) by simp] at hr
    rw [List.dropWhile_append] at hr
    have hidem : (trimTail post).reverse.dropWhile wsB = (trimTail post).reverse := by
      rw [hrevpost]
      exact dropWhile_idem _
    rw [hidem] at hr
    by_cases hemp : (trimTail post).reverse.isEmpty
    · rw [if_pos hemp] at hr
      rw [hm2, show (mf ++ ['}']).reverse = '}' :: mf.reverse by simp,
        List.cons_append, List.dropWhile_cons, if_neg (by decide)] at hr
      injection hr with hcc _
      exact (by decide : ('}' : Char) ≠ tick) hcc
    · rw [if_neg hemp] at hr
      cases hq : (trimTail post).reverse with
      | nil => rw [hq] at hemp; simp at hemp
      | cons c q2 =>
        rw [hq, List.cons_append] at hr
        injection hr with hcc _
        apply hpost2
        rw [← hcc]
        have : c ∈ trimTail post := by
          rw [← List.mem_reverse, hq]
          exact List.mem_cons_self c q2
        exact mem_trimTail this
  unfold cleanStage
  rw [dropJsonFenceHead_ne hhead, dropFenceHead_ne hhead, dropFenceTail_ne htail]
  have htr2 : trimL (pre.dropWhile wsB ++ strL (.obj kvs) ++ trimTail post) =
      (pre.dropWhile wsB).dropWhile wsB ++ strL (.obj kvs) ++
        trimTail (trimTail post) :=
    trimL_mid _ _ _ '{' '}' mr mf hm1 hm2 (by decide) (by decide)
  rw [htr2, dropWhile_idem, trimTail_idem]
  exact extractObject_mid _ _ _ mr mf hm1 hm2
    (fun c hc hh => hpre1 (hh ▸ mem_dropWhileWs hc))
    (fun c hc hh => hpost1 (hh ▸ mem_trimTail hc))

theorem cleanStage_fenced (kvs : List (String × JVal)) :
    cleanStage (trimL ([tick, tick, tick, 'j', 's', 'o', 'n', '\n']
      ++ strL (.obj kvs) ++ ['\n', tick, tick, tick])) = strL (.obj kvs) := by
  obtain ⟨mr, mf, hm1, hm2⟩ := strL_obj_shape kvs
  have htxt : [tick, tick, tick, 'j', 's', 'o', 'n', '\n']
      ++ strL (.obj kvs) ++ ['\n', tick, tick, tick] =
      tick :: tick :: tick :: 'j' :: 's' :: 'o' :: 'n' :: '\n' ::
        (strL (.obj kvs) ++ ['\n', tick, tick, tick]) := by
    simp
  have htrim : trimL ([tick, tick, tick, 'j', 's', 'o', 'n', '\n']
      ++ strL (.obj kvs) ++ ['\n', tick, tick, tick]) =
      tick :: tick :: tick :: 'j' :: 's' :: 'o' :: 'n' :: '\n' ::
        (strL (.obj kvs) ++ ['\n', tick, tick, tick]) := by
    rw [htxt]
    refine trimL_noop _ tick tick _
      (tick :: tick :: tick :: 'j' :: 's' :: 'o' :: 'n' :: '\n' ::
        (strL (.obj kvs) ++ ['\n', tick, tick])) rfl ?_ (by decide) (by decide)
    simp
  rw [htrim]
  have hjson : dropJsonFenceHead (tick :: tick :: tick :: 'j' :: 's' :: 'o' :: 'n' ::
      '\n' :: (strL (.obj kvs) ++ ['\n', tick, tick, tick])) =
      strL (.obj kvs) ++ ['\n', tick, tick, tick] := by
    unfold dropJsonFenceHead
    rw [if_pos ⟨by simp, by
      simp only [List.drop_succ_cons, List.drop_zero, List.take_succ_cons,
        List.take_zero]
      decide⟩]
    simp only [List.drop_succ_cons, List.drop_zero]
    rw [List.dropWhile_cons, if_pos (by decide), hm1, List.cons_append,
      List.dropWhile_cons, if_neg (by decide)]
  have hfh : dropFenceHead (strL (.obj kvs) ++ ['\n', tick, tick, tick]) =
      strL (.obj kvs) ++ ['\n', tick, tick, tick] := by
    unfold dropFenceHead
    rw [if_neg]
    intro hcond
    rw [hm1, List.cons_append, List.take_succ_cons] at hcond
    injection hcond with hcc _
    exact (by decide : ('{' : Char) ≠ tick) hcc
  have hft : dropFenceTail (strL (.obj kvs) ++ ['\n', tick, tick, tick]) =
      strL (.obj kvs) ++ ['\n'] := by
    unfold dropFenceTail
    rw [show (strL (.obj kvs) ++ ['\n', tick, tick, tick]).reverse =
      tick :: tick :: tick :: '\n' :: (strL (.obj kvs)).reverse by simp]
    rw [show List.dropWhile wsB (tick :: tick :: tick :: '\n' ::
        (strL (.obj kvs)).reverse) = tick :: tick :: tick :: '\n' ::
        (strL (.obj kvs)).reverse from by
      rw [List.dropWhile_cons, if_neg (by decide)]]
    rw [if_pos (by simp)]
    simp
  have htr2 : trimL (strL (.obj kvs) ++ ['\n']) = strL (.obj kvs) := by
    have := trimL_mid [] ['\n'] (strL (.obj kvs)) '{' '}' mr mf hm1 hm2
      (by decide) (by decide)
    simpa [trimTail, List.dropWhile_cons, wsB] using this
  unfold cleanStage
  rw [hjson, hfh, hft, htr2, extractObject_obj]

theorem analyzeFields_fix_defaults {kvs : List (String × JVal)}
    (hn : ∀ w, lookupKV kvs "notes" = some w → jsTruthy w = true →
      ∃ s, w = .str s ∧ stripNotesBackslashes s = s)
    (hm : ∀ w, lookupKV kvs "mermaidCode" = some w → jsTruthy w = true →
      ∃ s, w = .str s ∧ sanitizeMermaid s = s) :
    analyzeFields (.obj kvs) = .ok (.obj (defaultField
      (defaultField kvs "title" (.str "Handwritten Notes"))
      "subject" (.str "General"))) := by
  simp only [analyzeFields, sanStringField_fix hm, sanStringField_fix hn]

theorem analyzeSanitize_wrapped_prose (kvs : List (String × JVal))
    (pre post : List Char) (hwf : wfJ (.obj kvs) = true)
    (hpre1 : '{' ∉ pre) (hpre2 : tick ∉ pre)
    (hpost1 : '}' ∉ post) (hpost2 : tick ∉ post)
    (hn : ∀ w, lookupKV kvs "notes" = some w → jsTruthy w = true →
      ∃ s, w = .str s ∧ stripNotesBackslashes s = s)
    (hm : ∀ w, lookupKV kvs "mermaidCode" = some w → jsTruthy w = true →
      ∃ s, w = .str s ∧ sanitizeMermaid s = s) :
    analyzeSanitize (String.mk (pre ++ strL (.obj kvs) ++ post)) =
      .ok (.obj (defaultField
        (defaultField kvs "title" (.str "Handwritten Notes"))
        "subject" (.str "General"))) := by
  obtain ⟨mr, mf, hm1, hm2⟩ := strL_obj_shape kvs
  have htr : trimL (pre ++ strL (.obj kvs) ++ post) =
      pre.dropWhile wsB ++ strL (.obj kvs) ++ trimTail post :=
    trimL_mid pre post _ '{' '}' mr mf hm1 hm2 (by decide) (by decide)
  have hp : parseStage (strL (.obj kvs)) = some (.obj kvs) := by
    unfold parseStage
    rw [parseJ_strL _ hwf]
  unfold analyzeSanitize
  rw [data_mk, cleanStage_wrapped kvs pre post hpre1 hpre2 hpost1 hpost2, hp]
  rw [if_neg (by rw [htr, hm1]; simp)]
  exact analyzeFields_fix_defaults hn hm

theorem analyzeSanitize_fenced (kvs : List (String × JVal))
    (hwf : wfJ (.obj kvs) = true)
    (hn : ∀ w, lookupKV kvs "notes" = some w → jsTruthy w = true →
      ∃ s, w = .str s ∧ stripNotesBackslashes s = s)
    (hm : ∀ w, lookupKV kvs "mermaidCode" = some w → jsTruthy w = true →
      ∃ s, w = .str s ∧ sanitizeMermaid s = s) :
    analyzeSanitize (String.mk ([tick, tick, tick, 'j', 's', 'o', 'n', '\n']
      ++ strL (.obj kvs) ++ ['\n', tick, tick, tick])) =
      .ok (.obj (defaultField
        (defaultField kvs "title" (.str "Handwritten Notes"))
        "subject" (.str "General"))) := by
  obtain ⟨mr, mf, hm1, hm2⟩ := strL_obj_shape kvs
  have hp : parseStage (strL (.obj kvs)) = some (.obj kvs) := by
    unfold parseStage
    rw [parseJ_strL _ hwf]
  unfold analyzeSanitize
  rw [data_mk, cleanStage_fenced kvs, hp]
  rw [if_neg (by
    rw [show [tick, tick, tick, 'j', 's', 'o', 'n', '\n']
        ++ strL (.obj kvs) ++ ['\n', tick, tick, tick] =
        tick :: tick :: tick :: 'j' :: 's' :: 'o' :: 'n' :: '\n' ::
          (strL (.obj kvs) ++ ['\n', tick, tick, tick]) by simp]
    rw [show trimL (tick :: tick :: tick :: 'j' :: 's' :: 'o' :: 'n' :: '\n' ::
        (strL (.obj kvs) ++ ['\n', tick, tick, tick])) =
        tick :: tick :: tick :: 'j' :: 's' :: 'o' :: 'n' :: '\n' ::
          (strL (.obj kvs) ++ ['\n', tick, tick, tick]) from by
      refine trimL_noop _ tick tick _
        (tick :: tick :: tick :: 'j' :: 's' :: 'o' :: 'n' :: '\n' ::
          (strL (.obj kvs) ++ ['\n', tick, tick])) rfl ?_ (by decide) (by decide)
      simp]
    simp)]
  exact analyzeFields_fix_defaults hn hm

theorem normalizeAnalyze_missing {req : AnalyzeReq}
    (h1 : req.images = none ∨ req.images = some [])
    (h2 : truthyStr req.imageBase64 = false) :
    normalizeAnalyze req = .error .missingInput := by
  unfold normalizeAnalyze pickImageList fallbackSingle
  rcases h1 with h | h <;> rw [h] <;> simp [h2]

theorem normalizeAnalyze_toomany {req : AnalyzeReq} {entries : List ImageEntry}
    (h : req.images = some entries)
    (hall : ∀ e ∈ entries, truthyStr e.imageBase64 = true)
    (hlen : entries.length > 10) :
    normalizeAnalyze req = .error .tooManyImages := by
  have hany : (entries.any fun e => !truthyStr e.imageBase64) = false := by
    simp only [List.any_eq_false]
    intro e he
    simp [hall e he]
  unfold normalizeAnalyze pickImageList
  rw [h]
  simp [hany, hlen, show entries.length > 0 from by omega]

theorem analyzeEndpoint_reqerr {req : AnalyzeReq} {e : ReqErr}
    (oracle : List ImageEntry → Except UpFail String)
    (h : normalizeAnalyze req = .error e) :
    analyzeEndpoint req oracle = .err 400 (reqErrMsg e) := by
  unfold analyzeEndpoint
  rw [h]

theorem analyzeEndpoint_up400 {req : AnalyzeReq} {imgs : List ImageEntry}
    (msg : String) (h : normalizeAnalyze req = .ok imgs) :
    analyzeEndpoint req (fun _ => .error ⟨some 400, msg⟩) =
      .err 400 ("Bad request to OpenAI: " ++ msg) := by
  unfold analyzeEndpoint
  rw [h]
  rfl

/-- C1: the claim states that within flowchart text every bracketed node label of
square-bracket or curly-brace shape has ALL characters from the set quote,
apostrophe, colon, equals stripped from the label body, so that sanitizing
mermaidCode containing the label [Step: "one"] yields that label with both the
colon and the quotes removed while the surrounding arrow tokens are preserved.
The code (the global regex replace of inkparse-server.js lines 227-234) matches
a bracketed label once and replaces only the FIRST such character, then resumes
scanning after the closing bracket: the colon becomes a space and both quotes
remain in the label body. This theorem evaluates the embedded sanitizer at that
failing input; the arrow tokens are indeed unchanged, but the second and third
disallowed characters survive, contradicting the claim and the stated intent of
the code comment (strip dangerous chars from inside node labels). -/
theorem claimC1_label_strip_eval :
    sanitizeMermaid "A --> B[Step: \"one\"] --> C" =
      "A --> B[Step  \"one\"] --> C" := rfl

/-- C2 counterexample: the sanitizer is not idempotent on its own output. A
completion whose mermaidCode label carries two disallowed characters is
sanitized to a record whose label still carries one; serializing that record and
sanitizing again removes the second one, producing a different record. -/
theorem claimC2_counterexample :
    analyzeSanitize
      "\x7b\"mermaidCode\":\"[a:b:c]\",\"title\":\"t\",\"subject\":\"s\",\"notes\":\"n\"\x7d"
      = .ok (.obj [("mermaidCode", .str "[a b:c]"), ("title", .str "t"),
        ("subject", .str "s"), ("notes", .str "n")]) ∧
    analyzeSanitize (stringifyJ (.obj [("mermaidCode", .str "[a b:c]"),
      ("title", .str "t"), ("subject", .str "s"), ("notes", .str "n")]))
      = .ok (.obj [("mermaidCode", .str "[a b c]"), ("title", .str "t"),
        ("subject", .str "s"), ("notes", .str "n")]) ∧
    JVal.obj [("mermaidCode", .str "[a b c]"), ("title", .str "t"),
        ("subject", .str "s"), ("notes", .str "n")] ≠
      JVal.obj [("mermaidCode", .str "[a b:c]"), ("title", .str "t"),
        ("subject", .str "s"), ("notes", .str "n")] :=
  ⟨rfl, rfl, by simp⟩

/-- C2 (amended): the sanitizer is idempotent on its own output PROVIDED the
sanitized record is an object (with the well-formedness every parsed value has:
distinct keys) whose mermaidCode value, when present and truthy, is already a
fixed point of the mermaid label sanitization — that is, its bracketed labels
retain no disallowed character. Without that proviso idempotence fails, because
one label pass removes only the first disallowed character per label. All other
stages (fence stripping, extraction, parse of the serialized record, notes
cleanup, title and subject defaulting) are proved idempotent unconditionally. -/
theorem claimC2_idempotent_when_labels_stable (raw : String)
    (kvs : List (String × JVal))
    (hok : analyzeSanitize raw = .ok (.obj kvs))
    (hwf : wfJ (.obj kvs) = true)
    (hmfix : ∀ w, lookupKV kvs "mermaidCode" = some w → jsTruthy w = true →
      ∃ s, w = .str s ∧ sanitizeMermaid s = s) :
    analyzeSanitize (stringifyJ (.obj kvs)) = .ok (.obj kvs) := by
  obtain ⟨v, hp, hf⟩ := analyzeSanitize_ok_dissect hok
  obtain ⟨kvs0, rfl, hf0⟩ := analyzeFields_ok_obj hf
  obtain ⟨ht, hs, hn, _⟩ := analyzeFields_obj_out hf0
  exact analyzeSanitize_stringify_obj hwf (analyzeFields_fix ht hs hn hmfix)

/-- C2 witness: a concrete sanitized record on which re-sanitizing the
serialized output returns the identical record. -/
theorem claimC2_witness :
    analyzeSanitize (stringifyJ (.obj [("title", .str "t"),
      ("subject", .str "General")])) =
      .ok (.obj [("title", .str "t"), ("subject", .str "General")]) :=
  claimC2_idempotent_when_labels_stable "\x7b\"title\":\"t\"\x7d"
    [("title", .str "t"), ("subject", .str "General")] rfl (by decide)
    (fun w hw _ => Option.noConfusion hw)

/-- C3 counterexample: the round trip is not the identity up to defaults. A
well-formed object whose notes value contains a backslash not followed by a
Markdown character (here, backslash before the letter a) is wrapped in json
fences, extracted, and parsed back correctly, but the notes cleanup then deletes
the backslash, so the returned record differs from the original plus defaults. -/
theorem claimC3_counterexample :
    analyzeSanitize "\x60\x60\x60json\n\x7b\"notes\":\"\x5c\x5ca\"\x7d\n\x60\x60\x60"
      = .ok (.obj [("notes", .str "a"), ("title", .str "Handwritten Notes"),
        ("subject", .str "General")]) ∧
    JVal.str "a" ≠ JVal.str "\x5ca" :=
  ⟨rfl, by simp⟩

/-- C3 (amended): for every well-formed JSON object of the modeled subset whose
notes and mermaidCode values, when present and truthy, are strings already fixed
under their respective sanitizers, the serialized object — either surrounded by
prose whose prefix contains no opening brace and no backtick and whose suffix
contains no closing brace and no backtick, or wrapped in json code fences — is
extracted, parsed, and returned as the original object with the title and
subject defaults applied. Without the fixed-point proviso the notes and
mermaidCode rewriting steps can change the record, and prose containing braces
can defeat the first-brace-to-last-brace extraction. -/
theorem claimC3_roundtrip_amended :
    (∀ (kvs : List (String × JVal)) (pre post : List Char),
      wfJ (.obj kvs) = true → '{' ∉ pre → tick ∉ pre → '}' ∉ post → tick ∉ post →
      (∀ w, lookupKV kvs "notes" = some w → jsTruthy w = true →
        ∃ s, w = .str s ∧ stripNotesBackslashes s = s) →
      (∀ w, lookupKV kvs "mermaidCode" = some w → jsTruthy w = true →
        ∃ s, w = .str s ∧ sanitizeMermaid s = s) →
      analyzeSanitize (String.mk (pre ++ strL (.obj kvs) ++ post)) =
        .ok (.obj (defaultField
          (defaultField kvs "title" (.str "Handwritten Notes"))
          "subject" (.str "General")))) ∧
    (∀ (kvs : List (String × JVal)), wfJ (.obj kvs) = true →
      (∀ w, lookupKV kvs "notes" = some w → jsTruthy w = true →
        ∃ s, w = .str s ∧ stripNotesBackslashes s = s) →
      (∀ w, lookupKV kvs "mermaidCode" = some w → jsTruthy w = true →
        ∃ s, w = .str s ∧ sanitizeMermaid s = s) →
      analyzeSanitize (String.mk ([tick, tick, tick, 'j', 's', 'o', 'n', '\n']
        ++ strL (.obj kvs) ++ ['\n', tick, tick, tick])) =
        .ok (.obj (defaultField
          (defaultField kvs "title" (.str "Handwritten Notes"))
          "subject" (.str "General")))) :=
  ⟨fun kvs pre post hwf h1 h2 h3 h4 hn hm =>
      analyzeSanitize_wrapped_prose kvs pre post hwf h1 h2 h3 h4 hn hm,
    fun kvs hwf hn hm => analyzeSanitize_fenced kvs hwf hn hm⟩

/-- C3 witness: a concrete object surrounded by prose commentary round-trips to
itself plus the subject default. -/
theorem claimC3_witness :
    analyzeSanitize (String.mk ("Result: ".data ++
      strL (.obj [("title", .str "t")]) ++ " done.".data)) =
      .ok (.obj [("title", .str "t"), ("subject", .str "General")]) :=
  claimC3_roundtrip_amended.1 [("title", .str "t")] "Result: ".data " done.".data
    (by decide) (by decide) (by decide) (by decide) (by decide)
    (fun w hw _ => Option.noConfusion hw) (fun w hw _ => Option.noConfusion hw)

/-- C4 counterexample: after sanitization the four fields are NOT all present,
and the mermaidCode can still carry a disallowed character inside a node label.
The completion here has only a mermaidCode field whose label carries two colons:
the result lacks notes entirely, and the sanitized label still contains a colon,
a character of the stripped class. -/
theorem claimC4_counterexample :
    analyzeSanitize "\x7b\"mermaidCode\":\"[a:b:c]\"\x7d" = .ok (.obj
      [("mermaidCode", .str "[a b:c]"), ("title", .str "Handwritten Notes"),
        ("subject", .str "General")]) ∧
    lookupKV [("mermaidCode", JVal.str "[a b:c]"),
      ("title", JVal.str "Handwritten Notes"),
      ("subject", JVal.str "General")] "notes" = none ∧
    badLabelChar ':' = true ∧ ':' ∈ "[a b:c]".data :=
  ⟨rfl, rfl, rfl, by decide⟩

/-- C4 (amended): for every completion the analyze sanitizer accepts with an
object result, title and subject are present (defaulted when missing or falsy);
notes and mermaidCode are not defaulted and may be absent; and the mermaidCode
value, when present and truthy, is a string in which every carriage return has
been normalized away, so only newline line breaks remain. The further original
clause that no disallowed character remains inside node-label brackets is false
and is dropped (see the counterexample and C1). -/
theorem claimC4_invariant_amended (raw : String) (kvs : List (String × JVal))
    (h : analyzeSanitize raw = .ok (.obj kvs)) :
    lookupKV kvs "title" ≠ none ∧ lookupKV kvs "subject" ≠ none ∧
    (∀ w, lookupKV kvs "mermaidCode" = some w → jsTruthy w = true →
      ∃ s, w = .str s ∧ '\r' ∉ s.data) := by
  obtain ⟨v, hp, hf⟩ := analyzeSanitize_ok_dissect h
  obtain ⟨kvs0, rfl, hf0⟩ := analyzeFields_ok_obj hf
  obtain ⟨ht, hs, hn, hm⟩ := analyzeFields_obj_out hf0
  refine ⟨truthyOpt_ne_none ht, truthyOpt_ne_none hs, ?_⟩
  intro w hw htr
  obtain ⟨s0, rfl⟩ := hm w hw htr
  exact ⟨_, rfl, noCR_sanitizeMermaid s0⟩

/-- C4 witness: the invariant instantiated at a concrete completion with a
carriage return inside mermaidCode. -/
theorem claimC4_witness :
    lookupKV [("mermaidCode", JVal.str "a\nb"),
      ("title", JVal.str "Handwritten Notes"),
      ("subject", JVal.str "General")] "title" ≠ none ∧
    (∃ s, JVal.str "a\nb" = .str s ∧ '\r' ∉ s.data) :=
  ⟨(claimC4_invariant_amended "\x7b\"mermaidCode\":\"a\x5crb\"\x7d" _ rfl).1,
    (claimC4_invariant_amended "\x7b\"mermaidCode\":\"a\x5crb\"\x7d" _ rfl).2.2
      (.str "a\nb") rfl (by decide)⟩

/-- C5 counterexample: the sanitizer does NOT fill a default for every listed
field. In the image flow, notes receives no default: sanitizing an empty object
yields a record with only the title and subject defaults, and notes is left
undefined, contradicting the claim that none of the listed fields is ever left
undefined. -/
theorem claimC5_counterexample :
    analyzeSanitize "\x7b\x7d" = .ok (.obj [("title", .str "Handwritten Notes"),
      ("subject", .str "General")]) ∧
    lookupKV [("title", JVal.str "Handwritten Notes"),
      ("subject", JVal.str "General")] "notes" = none :=
  ⟨rfl, rfl⟩

/-- C5 (amended): in the image flow the sanitizer defaults exactly title (to
Handwritten Notes) and subject (to General) and never leaves THOSE undefined;
notes is not defaulted. In the document flow it defaults exactly title,
subtitle, sections, keyHighlights and tags to the documented values and never
leaves those five undefined. The defaults are applied precisely when the parsed
field is absent or falsy. -/
theorem claimC5_defaults_amended :
    (∀ (raw : String) (kvs : List (String × JVal)),
      analyzeSanitize raw = .ok (.obj kvs) →
      lookupKV kvs "title" ≠ none ∧ lookupKV kvs "subject" ≠ none) ∧
    (∀ (kvs kvs' : List (String × JVal)),
      analyzeFields (.obj kvs) = .ok (.obj kvs') →
      (truthyOpt (lookupKV kvs "title") = false →
        lookupKV kvs' "title" = some (.str "Handwritten Notes")) ∧
      (truthyOpt (lookupKV kvs "subject") = false →
        lookupKV kvs' "subject" = some (.str "General"))) ∧
    (∀ (raw : String) (kvs : List (String × JVal)),
      docSanitize raw = .ok (.obj kvs) →
      lookupKV kvs "title" ≠ none ∧ lookupKV kvs "subtitle" ≠ none ∧
      lookupKV kvs "sections" ≠ none ∧ lookupKV kvs "keyHighlights" ≠ none ∧
      lookupKV kvs "tags" ≠ none) ∧
    (∀ (kvs kvs' : List (String × JVal)),
      docFields (.obj kvs) = .ok (.obj kvs') →
      (truthyOpt (lookupKV kvs "title") = false →
        lookupKV kvs' "title" = some (.str "AI Agent Documentation")) ∧
      (truthyOpt (lookupKV kvs "subtitle") = false →
        lookupKV kvs' "subtitle" =
          some (.str "System overview and behaviour guide")) ∧
      (truthyOpt (lookupKV kvs "sections") = false →
        lookupKV kvs' "sections" = some (.arr [])) ∧
      (truthyOpt (lookupKV kvs "keyHighlights") = false →
        lookupKV kvs' "keyHighlights" = some (.arr [])) ∧
      (truthyOpt (lookupKV kvs "tags") = false →
        lookupKV kvs' "tags" = some (.arr []))) := by
  refine ⟨?_, ?_, ?_, ?_⟩
  · intro raw kvs h
    obtain ⟨v, hp, hf⟩ := analyzeSanitize_ok_dissect h
    obtain ⟨kvs0, rfl, hf0⟩ := analyzeFields_ok_obj hf
    obtain ⟨_, _, h3, h4⟩ := analyzeFields_defaults hf0
    exact ⟨h3, h4⟩
  · intro kvs kvs' h
    obtain ⟨h1, h2, _, _⟩ := analyzeFields_defaults h
    exact ⟨h1, h2⟩
  · intro raw kvs h
    obtain ⟨v, hp, hf⟩ := docSanitize_ok_dissect h
    obtain ⟨kvs0, rfl, hf0⟩ := docFields_ok_obj hf
    obtain ⟨h1, h2, h3, h4, h5, _⟩ := docFields_obj_out hf0
    exact ⟨h1, h2, h3, h4, h5⟩
  · intro kvs kvs' h
    obtain ⟨_, _, _, _, _, h6, h7, h8, h9, h10⟩ := docFields_obj_out h
    exact ⟨h6, h7, h8, h9, h10⟩

/-- C5 witness: the defaults instantiated at concrete empty completions of both
flows. -/
theorem claimC5_witness :
    (lookupKV [("title", JVal.str "Handwritten Notes"),
      ("subject", JVal.str "General")] "title" ≠ none) ∧
    (lookupKV [("title", JVal.str "Handwritten Notes"),
      ("subject", JVal.str "General")] "title" =
        some (.str "Handwritten Notes")) ∧
    (lookupKV [("title", JVal.str "AI Agent Documentation"),
      ("subtitle", JVal.str "System overview and behaviour guide"),
      ("sections", JVal.arr []), ("keyHighlights", JVal.arr []),
      ("tags", JVal.arr [])] "sections" ≠ none) :=
  ⟨(claimC5_defaults_amended.1 "\x7b\x7d" _ rfl).1,
    ((claimC5_defaults_amended.2.1 [] _ rfl).1 rfl),
    ((claimC5_defaults_amended.2.2.1 "\x7b\x7d" _ rfl).2.2.1)⟩

/-- C6 counterexample: sections is not always a sequence after sanitization of
the document flow. A completion whose sections value is the truthy string x is
passed through unchanged, so the returned sections is a string, not a
sequence. -/
theorem claimC6_counterexample :
    docSanitize "\x7b\"sections\":\"x\"\x7d" = .ok (.obj [("sections", .str "x"),
      ("title", .str "AI Agent Documentation"),
      ("subtitle", .str "System overview and behaviour guide"),
      ("keyHighlights", .arr []), ("tags", .arr [])]) ∧
    isArr (.str "x") = false :=
  ⟨rfl, rfl⟩

/-- C6 (amended): for every completion the document-flow sanitizer accepts with
an object result, sections is always PRESENT (never absent); it is set to the
empty sequence exactly when the parsed sections value was absent or falsy, but a
truthy non-sequence value is passed through unchanged, so presence, not
sequence-ness, is the invariant the code guarantees. -/
theorem claimC6_sections_present :
    (∀ (raw : String) (kvs : List (String × JVal)),
      docSanitize raw = .ok (.obj kvs) → lookupKV kvs "sections" ≠ none) ∧
    (∀ (kvs kvs' : List (String × JVal)),
      docFields (.obj kvs) = .ok (.obj kvs') →
      truthyOpt (lookupKV kvs "sections") = false →
      lookupKV kvs' "sections" = some (.arr [])) := by
  constructor
  · intro raw kvs h
    obtain ⟨v, hp, hf⟩ := docSanitize_ok_dissect h
    obtain ⟨kvs0, rfl, hf0⟩ := docFields_ok_obj hf
    exact (docFields_obj_out hf0).2.2.1
  · intro kvs kvs' h hf
    exact (docFields_obj_out h).2.2.2.2.2.2.2.1 hf

/-- C6 witness: sections is present in the sanitized record of a concrete
completion that lacked it. -/
theorem claimC6_witness :
    lookupKV [("title", JVal.str "AI Agent Documentation"),
      ("subtitle", JVal.str "System overview and behaviour guide"),
      ("sections", JVal.arr []), ("keyHighlights", JVal.arr []),
      ("tags", JVal.arr [])] "sections" ≠ none :=
  claimC6_sections_present.1 "\x7b\x7d" _ rfl

/-- C7 counterexample: a third kind of failure escapes the sanitize region
besides the empty-response and unparsable failures. A completion whose
mermaidCode value is a truthy object has no .replace method, so the field
sanitization throws a TypeError, which the endpoint catch turns into an
uncategorized 500 — contradicting the claim that no other exception kind
escapes. -/
theorem claimC7_counterexample :
    analyzeSanitize "\x7b\"mermaidCode\":\x7b\x7d\x7d" = .error .typeError := rfl

/-- C7 (amended): every upstream completion that is empty after trimming fails
with the EmptyUpstreamResponse failure, and the only failures the sanitizer can
produce are EmptyUpstreamResponse, UnparsableUpstreamResponse, and a TypeError
that occurs exactly on parse results on which the field code throws: the null
value, or an object whose truthy mermaidCode or notes value is not a string. -/
theorem claimC7_error_kinds :
    (∀ raw : String, (trimL raw.data).isEmpty = true →
      analyzeSanitize raw = .error .emptyUpstream) ∧
    (∀ (raw : String) (e : SErr), analyzeSanitize raw = .error e →
      e = .emptyUpstream ∨ (∃ d, e = .unparsable d) ∨
      (e = .typeError ∧ ∃ v, parseStage (cleanStage (trimL raw.data)) = some v ∧
        badParsed v = true)) := by
  constructor
  · intro raw h
    unfold analyzeSanitize
    rw [if_pos h]
  · intro raw e h
    exact analyzeSanitize_error_cases h

/-- C7 witness: a concrete whitespace-only completion fails with the
EmptyUpstreamResponse failure. -/
theorem claimC7_witness : analyzeSanitize "  " = .error .emptyUpstream :=
  claimC7_error_kinds.1 "  " rfl

/-- C8: the repair-and-retry contract holds. First, whenever the strict parse of
the extracted text fails, the parse stage is exactly one retry on the repaired
text in which every backslash not already starting a recognized escape sequence
is doubled. Second, a concrete text carrying a literal stray backslash inside a
string value fails the strict parse and succeeds after the repair. Third,
whenever both attempts fail on a nonempty completion, the sanitizer fails with
the UnparsableUpstreamResponse failure carrying the first 600 characters of the
trimmed raw text as diagnostics (600 lies in the stated 600 to 800 range). -/
theorem claimC8_repair_retry :
    (∀ clean : List Char, parseJ clean = none →
      parseStage clean = parseJ (fixBackslashes clean)) ∧
    (parseJ "\x7b\"mermaidCode\":\"flowchart TD\x5cq A\"\x7d".data = none ∧
      parseStage "\x7b\"mermaidCode\":\"flowchart TD\x5cq A\"\x7d".data =
        some (.obj [("mermaidCode", .str "flowchart TD\x5cq A")])) ∧
    (∀ raw : String, (trimL raw.data).isEmpty = false →
      parseStage (cleanStage (trimL raw.data)) = none →
      analyzeSanitize raw = .error (.unparsable ((trimL raw.data).take 600))) := by
  refine ⟨?_, ⟨rfl, rfl⟩, ?_⟩
  · intro clean h
    unfold parseStage
    rw [h]
  · intro raw h1 h2
    unfold analyzeSanitize
    rw [if_neg (by simp [h1]), h2]

/-- C8 witness: the retry equation and the unparsable failure instantiated at
concrete texts on which the strict parse fails. -/
theorem claimC8_witness :
    parseStage "x".data = parseJ (fixBackslashes "x".data) ∧
    analyzeSanitize "x" = .error (.unparsable (Char.ofNat 120 :: [])) :=
  ⟨claimC8_repair_retry.1 "x".data rfl, claimC8_repair_retry.2.2 "x" rfl rfl⟩

/-- C9: the request-normalizer rejection contract of POST /api/analyze. A
request with neither a truthy single image payload nor a nonempty images
sequence is rejected with 400 and the missing-input message; a request whose
images sequence has more than ten entries is rejected with 400 and the
maximum-ten-images message; a request whose sequence contains an entry lacking
its image payload is rejected with 400 and the malformed-entry message. Each
part is quantified over the model oracle, so the response is the same whatever
the model would return: no model call is performed. -/
theorem claimC9_reject_400 :
    (∀ (req : AnalyzeReq) (oracle : List ImageEntry → Except UpFail String),
      (req.images = none ∨ req.images = some []) →
      truthyStr req.imageBase64 = false →
      analyzeEndpoint req oracle =
        .err 400 "Missing imageBase64 or images array in request body.") ∧
    (∀ (req : AnalyzeReq) (entries : List ImageEntry)
        (oracle : List ImageEntry → Except UpFail String),
      req.images = some entries →
      (∀ e ∈ entries, truthyStr e.imageBase64 = true) →
      entries.length > 10 →
      analyzeEndpoint req oracle = .err 400 "Maximum 10 images per request.") ∧
    (∀ oracle : List ImageEntry → Except UpFail String,
      analyzeEndpoint ⟨none, none, some [⟨none, some "image/png"⟩]⟩ oracle =
        .err 400 "Each image entry must include an imageBase64 field.") := by
  refine ⟨?_, ?_, ?_⟩
  · intro req oracle h1 h2
    exact analyzeEndpoint_reqerr oracle (normalizeAnalyze_missing h1 h2)
  · intro req entries oracle h hall hlen
    exact analyzeEndpoint_reqerr oracle (normalizeAnalyze_toomany h hall hlen)
  · intro oracle
    rfl

/-- C9 witness: the missing-input and eleven-image rejections instantiated at
concrete requests and a concrete oracle. -/
theorem claimC9_witness :
    analyzeEndpoint ⟨none, none, none⟩ (fun _ => .ok "") =
      .err 400 "Missing imageBase64 or images array in request body." ∧
    analyzeEndpoint ⟨none, none, some (List.replicate 11 ⟨some "img", none⟩)⟩
        (fun _ => .ok "") = .err 400 "Maximum 10 images per request." :=
  ⟨claimC9_reject_400.1 ⟨none, none, none⟩ (fun _ => .ok "") (Or.inl rfl) rfl,
    claimC9_reject_400.2.1 ⟨none, none, some (List.replicate 11 ⟨some "img", none⟩)⟩
      (List.replicate 11 ⟨some "img", none⟩) (fun _ => .ok "") rfl
      (fun e he => by rw [List.eq_of_mem_replicate he]; rfl) (by decide)⟩

/-- C10: when the upstream model call fails with an error carrying status 400,
the endpoint relays HTTP status 400 to the client with the message Bad request
to OpenAI followed by the upstream error text; and a request-validation failure
also answers with status 400, so a client observing status 400 cannot tell an
input-validation failure from an upstream bad-request failure by the status
alone, even though the taxonomy maps only input validation to 400. -/
theorem claimC10_upstream_400_status :
    (∀ (req : AnalyzeReq) (imgs : List ImageEntry) (msg : String),
      normalizeAnalyze req = .ok imgs →
      analyzeEndpoint req (fun _ => .error ⟨some 400, msg⟩) =
        .err 400 ("Bad request to OpenAI: " ++ msg)) ∧
    (∀ oracle : List ImageEntry → Except UpFail String,
      analyzeEndpoint ⟨none, none, none⟩ oracle =
        .err 400 "Missing imageBase64 or images array in request body.") := by
  constructor
  · intro req imgs msg h
    exact analyzeEndpoint_up400 msg h
  · intro oracle
    rfl

/-- C10 witness: a concrete valid request whose model call fails with status 400
is answered with status 400 and the relayed message. -/
theorem claimC10_witness :
    analyzeEndpoint ⟨some "img", none, none⟩ (fun _ => .error ⟨some 400, "bad"⟩) =
      .err 400 "Bad request to OpenAI: bad" :=
  claimC10_upstream_400_status.1 ⟨some "img", none, none⟩
    [⟨some "img", some "image/jpeg"⟩] "bad" rfl
